import Mathlib

/-!
TCP ping-pong (`sockets.c`): embedding and verification.

The program is embedded as a tree of library calls: every call the C code makes
(`socket`, `bind`, `send`, `recv`, `printf`, ...) is a node whose children are
indexed by the result the call may return.  `exit` and the return from `main`
are the leaves.  Two semantics are given over the same trees:

* `exec` runs one process against an oracle that supplies the result of each
  call, so that a statement about `exec p o` for all `o` is a statement about
  every path through the code of one process;
* `step` runs the parent and the child together over one connection.  The
  connection is a pair of FIFO queues of messages: a successful `send` appends
  the bytes it was given as one message, a successful `recv` removes the oldest
  message and returns exactly its bytes, a `recv` with nothing to deliver
  blocks.  Any `send` or `recv` may also fail, and every call that does not
  touch the connection may return any result.
-/

namespace PingPong

/-! ## Constants -/

/-- The listening port, `#define PORT 12345`. -/
def PORT : Nat := 12345

/-- The number of rounds, `#define MAX_ITERATIONS 10`. -/
def MAX_ITERATIONS : Nat := 10

/-- Address family for IPv4 (sys/socket.h). -/
def AF_INET : Int := 2

/-- Stream socket type, i.e. TCP for `AF_INET` (sys/socket.h). -/
def SOCK_STREAM : Int := 1

/-- Socket option level (asm-generic/socket.h). -/
def SOL_SOCKET : Int := 1

/-- Option number of SO_REUSEADDR in asm-generic/socket.h. -/
def SO_REUSEADDR : Nat := 2

/-- Option number of SO_REUSEPORT in asm-generic/socket.h. -/
def SO_REUSEPORT : Nat := 15

/-- The wildcard address `INADDR_ANY` (the 32-bit value 0): its four bytes in
memory are zero in either byte order. -/
def INADDR_ANY : List Nat := [0, 0, 0, 0]

/-- Exit status `EXIT_FAILURE` of stdlib.h. -/
def EXIT_FAILURE : Int := 1

/-! ## Pure library functions -/

/-- A C string literal in memory: its characters followed by the terminator. -/
def cstr (s : String) : List Nat := s.toList.map Char.toNat ++ [0]

/-- The libc `strlen`: the number of bytes before the first zero byte. -/
def strlen : List Nat → Nat
  | [] => 0
  | b :: bs => if b = 0 then 0 else strlen bs + 1

/-- The libc `htons`: the two bytes of the 16-bit value in network order
(most significant byte first), as they are stored in `sin_port`. -/
def htons (x : Nat) : List Nat := [x / 256 % 256, x % 256]

/-- Dotted-quad parser behind `inet_pton(AF_INET, ...)`: `cur` is the octet
being read, `acc` the octets already complete. -/
def parseQuad : List Char → Option Nat → List Nat → Option (List Nat)
  | [], some n, acc => if acc.length = 3 then some (acc ++ [n]) else none
  | [], none, _ => none
  | c :: cs, cur, acc =>
    if c = '.' then
      match cur with
      | some n => if acc.length < 3 then parseQuad cs none (acc ++ [n]) else none
      | none => none
    else if c.isDigit then
      let n := cur.getD 0 * 10 + (c.toNat - 48)
      if n ≤ 255 then parseQuad cs (some n) acc else none
    else none

/-- The libc `inet_pton`: the return value (1 on success, 0 when the text is not
a valid address, -1 for an unsupported family) and the four address bytes in
network order. -/
def inet_pton (af : Int) (src : String) : Int × List Nat :=
  if af = AF_INET then
    match parseQuad src.toList none [] with
    | some bytes => (1, bytes)
    | none => (0, [])
  else (-1, [])

/-! ## Calls, results and programs -/

/-- The fields of `struct sockaddr_in` that the program sets. -/
structure SockAddrIn where
  sin_family : Int
  sin_port : List Nat
  sin_addr : List Nat
  deriving DecidableEq, Repr

/-- The library calls made by the program, with their arguments.  `printf`
stands for the `printf` and the `fflush(stdout)` that follows it. -/
inductive Call where
  | socket (domain type protocol : Int)
  | setsockopt (sockfd : Int) (level : Int) (optname : Nat) (optval : Int)
  | bind (sockfd : Int) (addr : SockAddrIn)
  | listen (sockfd : Int) (backlog : Int)
  | fork
  | connect (sockfd : Int) (addr : SockAddrIn)
  | accept (sockfd : Int)
  | send (sockfd : Int) (buf : List Nat) (len : Nat) (flags : Int)
  | recv (sockfd : Int) (len : Nat) (flags : Int)
  | close (fd : Int)
  | wait
  | sleep (seconds : Nat)
  | printf (text : String)
  | perror (s : String)
  deriving DecidableEq, Repr

/-- The result of a call: its return value and, for `recv`, the bytes written
into the buffer. -/
structure Res where
  val : Int
  data : List Nat
  deriving DecidableEq, Repr

/-- A program: a call followed by a continuation on its result, `exit(status)`,
or the return from `main`. -/
inductive Prog where
  | sys (c : Call) (k : Res → Prog)
  | exit (status : Int)
  | ret (v : Int)

/-! ## The program -/

/-- The function `wait_for_message`: announce SLEEP, block in `recv` on a 16-byte buffer,
exit with status 1 when the result is `<= 0`, otherwise announce READY and
return to the caller (`k`). -/
def wait_for_message (sock : Int) (process_name : String) (k : Prog) : Prog :=
  .sys (.printf ("[" ++ process_name ++ "] Переход в состояние SLEEP (ожидание сообщения)...\n")) fun _ =>
  .sys (.recv sock 16 0) fun r =>
  if r.val ≤ 0 then
    .sys (.perror "recv") fun _ => .exit 1
  else
    .sys (.printf ("[" ++ process_name ++ "] Переход в состояние READY (сообщение получено)\n")) fun _ =>
    k

/-- The function `send_message`: announce the send, send `strlen(msg) + 1` bytes of `msg`,
exit with status 1 when `send` returns -1, otherwise return to the caller. -/
def send_message (sock : Int) (process_name : String) (msg : List Nat) (k : Prog) : Prog :=
  .sys (.printf ("[" ++ process_name ++ "] Отправка сообщения синхронизации...\n")) fun _ =>
  .sys (.send sock msg (strlen msg + 1) 0) fun r =>
  if r.val = -1 then
    .sys (.perror "send") fun _ => .exit 1
  else k

/-- The loop of `process_a` with `n` iterations left and loop variable `i`. -/
def process_a_loop (conn_fd : Int) : Nat → Nat → Prog → Prog
  | 0, _, k => k
  | n + 1, i, k =>
    .sys (.printf ("\n--- Итерация " ++ toString (i + 1) ++ " (Process A) ---\n")) fun _ =>
    .sys (.sleep 1) fun _ =>
    send_message conn_fd "Process A" (cstr "PING")
      (wait_for_message conn_fd "Process A" (process_a_loop conn_fd n (i + 1) k))

/-- The function `process_a` (the server side): `MAX_ITERATIONS` rounds of work, send, wait
for the reply; then close the connection. -/
def process_a (conn_fd : Int) (k : Prog) : Prog :=
  .sys (.printf "[Process A] Начальное состояние: READY\n") fun _ =>
  process_a_loop conn_fd MAX_ITERATIONS 0 (.sys (.close conn_fd) fun _ => k)

/-- The loop of `process_b` with `n` iterations left and loop variable `i`. -/
def process_b_loop (sock_fd : Int) : Nat → Nat → Prog → Prog
  | 0, _, k => k
  | n + 1, i, k =>
    wait_for_message sock_fd "Process B"
      (.sys (.printf ("\n--- Итерация " ++ toString (i + 1) ++ " (Process B) ---\n")) fun _ =>
       .sys (.sleep 1) fun _ =>
       send_message sock_fd "Process B" (cstr "PONG") (process_b_loop sock_fd n (i + 1) k))

/-- The function `process_b` (the client side): `MAX_ITERATIONS` rounds of wait, work,
reply; then close the connection. -/
def process_b (sock_fd : Int) (k : Prog) : Prog :=
  .sys (.printf "[Process B] Начальное состояние: SLEEP\n") fun _ =>
  process_b_loop sock_fd MAX_ITERATIONS 0 (.sys (.close sock_fd) fun _ => k)

/-- The child branch of `main` (`pid == 0`): create a socket, connect to
127.0.0.1:PORT, run `process_b`, `exit(0)`. -/
def main_child : Prog :=
  .sys (.socket AF_INET SOCK_STREAM 0) fun sock =>
  if sock.val < 0 then
    .sys (.perror "socket") fun _ => .exit EXIT_FAILURE
  else
    let pton := inet_pton AF_INET "127.0.0.1"
    if pton.1 ≤ 0 then
      .sys (.perror "inet_pton") fun _ => .exit EXIT_FAILURE
    else
      .sys (.sleep 1) fun _ =>
      .sys (.connect sock.val ⟨AF_INET, htons PORT, pton.2⟩) fun c =>
      if c.val < 0 then
        .sys (.perror "connect") fun _ => .exit EXIT_FAILURE
      else
        process_b sock.val (.exit 0)

/-- The parent branch of `main` (`pid > 0`): accept one connection on the
listening socket, run `process_a`, wait for the child, print the final banner
and return 0. -/
def main_parent (server_fd : Int) : Prog :=
  .sys (.accept server_fd) fun new_socket =>
  if new_socket.val < 0 then
    .sys (.perror "accept") fun _ => .exit EXIT_FAILURE
  else
    process_a new_socket.val
      (.sys .wait fun _ =>
       .sys (.printf "\n=== TCP-пингпонг завершен ===\n") fun _ =>
       .ret 0)

/-- The function `main`. -/
def main : Prog :=
  .sys (.socket AF_INET SOCK_STREAM 0) fun server_fd =>
  if server_fd.val = 0 then
    .sys (.perror "socket") fun _ => .exit EXIT_FAILURE
  else
    .sys (.setsockopt server_fd.val SOL_SOCKET (SO_REUSEADDR ||| SO_REUSEPORT) 1) fun so =>
    if so.val ≠ 0 then
      .sys (.perror "setsockopt") fun _ => .exit EXIT_FAILURE
    else
      .sys (.bind server_fd.val ⟨AF_INET, htons PORT, INADDR_ANY⟩) fun b =>
      if b.val < 0 then
        .sys (.perror "bind") fun _ => .exit EXIT_FAILURE
      else
        .sys (.listen server_fd.val 1) fun l =>
        if l.val < 0 then
          .sys (.perror "listen") fun _ => .exit EXIT_FAILURE
        else
          .sys (.printf "=== Запуск TCP-пингпонг ===\n\n") fun _ =>
          .sys .fork fun pid =>
          if pid.val < 0 then
            .sys (.perror "fork") fun _ => .exit EXIT_FAILURE
          else if pid.val = 0 then main_child
          else main_parent server_fd.val

/-! ## One process against an oracle -/

/-- A call together with the result it returned. -/
structure Ev where
  call : Call
  res : Res
  deriving DecidableEq, Repr

/-- How a process ends. -/
inductive Outcome where
  | exited (status : Int)
  | returned (v : Int)
  deriving DecidableEq, Repr

/-- Run a program to its end: the `n`-th call gets the result `o n`.  The
result is the sequence of calls made and the way the process ended. -/
def exec : Prog → (Nat → Res) → List Ev × Outcome
  | .exit c, _ => ([], .exited c)
  | .ret v, _ => ([], .returned v)
  | .sys c k, o =>
    let rest := exec (k (o 0)) (fun n => o (n + 1))
    (⟨c, o 0⟩ :: rest.1, rest.2)

/-- An oracle that answers from a list and with `d` afterwards. -/
def oracle (l : List Res) (d : Res) : Nat → Res := fun n => l.getD n d

/-- A result that carries only a return value. -/
def rv (v : Int) : Res := ⟨v, []⟩

/-- The property `φ` holds at every call node of a program, whatever results
the earlier calls returned. -/
def Prog.All (φ : Call → (Res → Prog) → Prop) : Prog → Prop
  | .sys c k => φ c k ∧ ∀ r, Prog.All φ (k r)
  | .exit _ => True
  | .ret _ => True

/-- The property `post` holds of the history and outcome of every complete path
of a program that starts after history `h`. -/
def Prog.Paths (post : List Ev → Outcome → Prop) : List Ev → Prog → Prop
  | h, .sys c k => ∀ r, Prog.Paths post (h ++ [⟨c, r⟩]) (k r)
  | h, .exit s => post h (.exited s)
  | h, .ret v => post h (.returned v)

/-- The error path taken after a failed call: `perror(name); exit(1)`. -/
def fatal (name : String) : Prog :=
  .sys (.perror name) fun _ => .exit 1

/-- The name under which a failure of the call is reported. -/
def Call.diag : Call → String
  | .socket .. => "socket"
  | .setsockopt .. => "setsockopt"
  | .bind .. => "bind"
  | .listen .. => "listen"
  | .fork => "fork"
  | .connect .. => "connect"
  | .accept .. => "accept"
  | .send .. => "send"
  | .recv .. => "recv"
  | .close .. => "close"
  | .wait => "wait"
  | .sleep .. => "sleep"
  | .printf .. => "printf"
  | .perror .. => "perror"

/-- Whether a call of one of the six connection operations reported failure:
a negative result of `bind`, `listen`, `accept` or `connect`, the result -1 of
`send`, a result `<= 0` of `recv` (0: the peer closed, negative: error). -/
def reportsFailure (c : Call) (r : Res) : Bool :=
  match c with
  | .bind .. => decide (r.val < 0)
  | .listen .. => decide (r.val < 0)
  | .accept .. => decide (r.val < 0)
  | .connect .. => decide (r.val < 0)
  | .send .. => decide (r.val = -1)
  | .recv .. => decide (r.val ≤ 0)
  | _ => false

/-- What holds at each call of `main`: the arguments it is made with and the
error path that follows a failure. -/
def NodeOk (c : Call) (k : Res → Prog) : Prop :=
  match c with
  | .socket d t p => d = AF_INET ∧ t = SOCK_STREAM ∧ p = 0
  | .setsockopt _ level optname optval => level = SOL_SOCKET ∧ optname = 15 ∧ optval = 1
  | .bind _ a => a = ⟨AF_INET, [48, 57], [0, 0, 0, 0]⟩ ∧ ∀ r, r.val < 0 → k r = fatal "bind"
  | .listen _ b => b = 1 ∧ ∀ r, r.val < 0 → k r = fatal "listen"
  | .accept _ => ∀ r, r.val < 0 → k r = fatal "accept"
  | .connect _ a => a = ⟨AF_INET, [48, 57], [127, 0, 0, 1]⟩ ∧ ∀ r, r.val < 0 → k r = fatal "connect"
  | .send _ buf len flags =>
      len = strlen buf + 1 ∧ flags = 0 ∧ (buf = cstr "PING" ∨ buf = cstr "PONG") ∧
      ∀ r, r.val = -1 → k r = fatal "send"
  | .recv _ len flags => len = 16 ∧ flags = 0 ∧ ∀ r, r.val ≤ 0 → k r = fatal "recv"
  | _ => True

/-- The options that the successful `setsockopt` calls of a call sequence switch
on for descriptor `fd`.  An option name is the number of one option: the call
acts on the option whose number equals `optname`. -/
def optionsSet (tr : List Ev) (fd : Int) : List Nat :=
  tr.filterMap fun e =>
    match e.call with
    | .setsockopt fd' level optname optval =>
      if fd' = fd ∧ level = SOL_SOCKET ∧ optval ≠ 0 ∧ e.res.val = 0 then some optname else none
    | _ => none

/-! ## Two processes over one connection -/

/-- The two execution units: the process that runs `main` from the start, and
the process created by `fork`. -/
inductive Who where
  | parent
  | child
  deriving DecidableEq, Repr

/-- The other end of the connection. -/
def Who.peer : Who → Who
  | .parent => .child
  | .child => .parent

/-- A call made by one of the two processes, with its result. -/
structure Act where
  who : Who
  call : Call
  res : Res
  deriving DecidableEq, Repr

/-- The state of the two processes and of the connection between them.  The
messages in flight are kept in two FIFO queues, one per direction. -/
structure Sys where
  parent : Prog
  child : Option Prog
  connP : Option Int
  connC : Option Int
  closedP : Bool
  closedC : Bool
  toChild : List (List Nat)
  toParent : List (List Nat)
  trace : List Act

/-- A process that has called `exit` or returned from `main`. -/
def Prog.terminated : Prog → Bool
  | .sys _ _ => false
  | .exit _ => true
  | .ret _ => true

def Sys.prog (s : Sys) : Who → Option Prog
  | .parent => some s.parent
  | .child => s.child

def Sys.setProg (s : Sys) (w : Who) (p : Prog) : Sys :=
  match w with
  | .parent => { s with parent := p }
  | .child => { s with child := some p }

/-- The connected socket of a process: the result of `accept` in the parent,
the socket passed to a successful `connect` in the child. -/
def Sys.conn (s : Sys) : Who → Option Int
  | .parent => s.connP
  | .child => s.connC

def Sys.closed (s : Sys) : Who → Bool
  | .parent => s.closedP
  | .child => s.closedC

def Sys.setClosed (s : Sys) : Who → Sys
  | .parent => { s with closedP := true }
  | .child => { s with closedC := true }

/-- The messages sent to a process and not yet received by it. -/
def Sys.inbox (s : Sys) : Who → List (List Nat)
  | .parent => s.toParent
  | .child => s.toChild

def Sys.setInbox (s : Sys) (w : Who) (q : List (List Nat)) : Sys :=
  match w with
  | .parent => { s with toParent := q }
  | .child => { s with toChild := q }

/-- The end `w` of the connection is gone: closed by `w`, or `w` terminated. -/
def Sys.gone (s : Sys) (w : Who) : Bool :=
  s.closed w ||
    match s.prog w with
    | some p => p.terminated
    | none => false

/-- The child exists and has terminated. -/
def Sys.childDone (s : Sys) : Bool :=
  match s.child with
  | some p => p.terminated
  | none => false

/-- The effect of a call of process `w` that returns `r` on the connection, or
`none` when the call cannot return `r` in state `s` (a receive with nothing to
deliver blocks; `wait` blocks until the child has terminated).

* `send` fails with -1 or transmits all `len` bytes as one message;
* `recv` delivers exactly the oldest message in flight, returns 0 when nothing
  is in flight and the peer is gone, or fails with a negative result;
* `accept` succeeds once the child is connected; `connect` returns 0 or fails;
* every other call may return any result and leaves the connection alone. -/
def world (s : Sys) (w : Who) (c : Call) (r : Res) : Option Sys :=
  match c with
  | .accept _ =>
    if r.val < 0 then some s
    else if w = .parent ∧ s.connC.isSome ∧ s.connP = none then some { s with connP := some r.val }
    else none
  | .connect fd _ =>
    if r.val < 0 then some s
    else if r.val = 0 ∧ w = .child ∧ s.connC = none then some { s with connC := some fd }
    else none
  | .send fd buf len _ =>
    if r.val = -1 then some s
    else if r.val = len ∧ s.conn w = some fd ∧ s.closed w = false then
      some (s.setInbox w.peer (s.inbox w.peer ++ [buf.take len]))
    else none
  | .recv fd len _ =>
    if 0 < r.val then
      match s.inbox w with
      | m :: rest =>
        if r.val = m.length ∧ r.data = m ∧ m.length ≤ len ∧ s.conn w = some fd ∧ s.closed w = false then
          some (s.setInbox w rest)
        else none
      | [] => none
    else if r.val = 0 then
      if s.inbox w = [] ∧ s.gone w.peer = true then some s else none
    else some s
  | .close fd => some (if s.conn w = some fd then s.setClosed w else s)
  | .wait =>
    if 0 < r.val then
      if w = .parent ∧ s.childDone = true then some s else none
    else if w = .parent ∧ s.child.isSome then none
    else some s
  | _ => some s

/-- One step of process `w`: its next call returns `r`.  A successful `fork`
(positive result, in the parent, no child yet) creates the child, which
continues the same program with result 0. -/
def step (w : Who) (r : Res) (s : Sys) : Option Sys :=
  match s.prog w with
  | some (.sys c k) =>
    match c with
    | .fork =>
      if r.val < 0 then
        some { s.setProg w (k r) with trace := s.trace ++ [⟨w, c, r⟩] }
      else if w = .parent ∧ s.child.isNone ∧ 0 < r.val then
        some { s with parent := k r, child := some (k ⟨0, []⟩), trace := s.trace ++ [⟨w, c, r⟩] }
      else none
    | _ =>
      match world s w c r with
      | some s' => some { s'.setProg w (k r) with trace := s.trace ++ [⟨w, c, r⟩] }
      | none => none
  | _ => none

/-- One step of the system: some process makes its next call, with some result
that the connection allows. -/
def Step (s s' : Sys) : Prop := ∃ w r, step w r s = some s'

/-- The states reachable from `init`. -/
def Reachable (init s : Sys) : Prop := Relation.ReflTransGen Step init s

/-- Run a schedule: a list of (process, result) choices. -/
def run : List (Who × Res) → Sys → Option Sys
  | [], s => some s
  | (w, r) :: rest, s =>
    match step w r s with
    | some s' => run rest s'
    | none => none

/-- The state after a schedule, or the initial state when the schedule cannot
be followed. -/
def runD (sched : List (Who × Res)) (init : Sys) : Sys := (run sched init).getD init

/-- The whole program: one process at the start of `main`. -/
def mainInit : Sys :=
  { parent := main, child := none, connP := none, connC := none, closedP := false,
    closedC := false, toChild := [], toParent := [], trace := [] }

/-- The composition of `process_a` and `process_b` over an established
connection: the Initiator (`.parent`) runs `process_a` on its end `fdA`, the
Responder (`.child`) runs `process_b` on its end `fdB`. -/
def pairInit (fdA fdB : Int) : Sys :=
  { parent := process_a fdA (.ret 0), child := some (process_b fdB (.ret 0)),
    connP := some fdA, connC := some fdB, closedP := false, closedC := false,
    toChild := [], toParent := [], trace := [] }

/-! ## Observations on traces -/

/-- What a call with its result means for the connection. -/
inductive Eff where
  | sent (m : List Nat)
  | received (m : List Nat)
  | closed
  | waited
  | failed
  | other
  deriving DecidableEq, Repr

/-- A `send` that does not return -1 has sent its bytes; a `recv` with a
positive result has received a message; other results of the two are
failures.  `waited` is a `wait` that has returned. -/
def effOf (c : Call) (r : Res) : Eff :=
  match c with
  | .send _ buf len _ => if r.val = -1 then .failed else .sent (buf.take len)
  | .recv _ _ _ => if 0 < r.val then .received r.data else .failed
  | .close _ => .closed
  | .wait => .waited
  | _ => .other

def Act.eff (a : Act) : Eff := effOf a.call a.res

def Eff.isSent : Eff → Bool
  | .sent _ => true
  | _ => false

def Eff.isReceived : Eff → Bool
  | .received _ => true
  | _ => false

/-- How an event changes the queue `inW` of messages to the acting process and
the queue `inP` of messages to its peer. -/
def QEff (inW inP inW' inP' : List (List Nat)) : Eff → Prop
  | .sent m => inP' = inP ++ [m] ∧ inW' = inW
  | .received m => inW = m :: inW' ∧ inP' = inP
  | _ => inW' = inW ∧ inP' = inP

/-- How the two queues change with an event of process `w`. -/
def QEffect (s s' : Sys) (w : Who) (e : Eff) : Prop :=
  QEff (s.inbox w) (s.inbox w.peer) (s'.inbox w) (s'.inbox w.peer) e

/-- The events observable on the connection. -/
inductive ConnEv where
  | sent (w : Who) (m : List Nat)
  | received (w : Who) (m : List Nat)
  deriving DecidableEq, Repr

def connEvent (a : Act) : Option ConnEv :=
  match a.eff with
  | .sent m => some (.sent a.who m)
  | .received m => some (.received a.who m)
  | _ => none

/-- The sequence of messages sent and received, in the order they happened. -/
def connTrace (tr : List Act) : List ConnEv := tr.filterMap connEvent

/-- The messages sent by `w`, in order. -/
def sentBy (w : Who) (l : List ConnEv) : List (List Nat) :=
  l.filterMap fun e =>
    match e with
    | .sent w' m => if w' = w then some m else none
    | .received _ _ => none

/-- The messages received by `w`, in order. -/
def receivedBy (w : Who) (l : List ConnEv) : List (List Nat) :=
  l.filterMap fun e =>
    match e with
    | .received w' m => if w' = w then some m else none
    | .sent _ _ => none

/-- The bytes of a message `"PING"`, terminator included. -/
def PING : List Nat := cstr "PING"

/-- The bytes of a message `"PONG"`, terminator included. -/
def PONG : List Nat := cstr "PONG"

/-- One round: A sends PING, B receives it, B sends PONG, A receives it. -/
def round : List ConnEv :=
  [.sent .parent PING, .received .child PING, .sent .child PONG, .received .parent PONG]

/-- The full exchange: `MAX_ITERATIONS` rounds. -/
def expected : List ConnEv := (List.replicate MAX_ITERATIONS round).flatten

/-- The `n`-th event of the exchange. -/
def expectedAt (n : Nat) : ConnEv :=
  if n % 4 = 0 then .sent .parent PING
  else if n % 4 = 1 then .received .child PING
  else if n % 4 = 2 then .sent .child PONG
  else .received .parent PONG

/-- Counters of what a process has done on the connection. -/
structure Cnt where
  sends : Nat
  recvs : Nat
  closes : Nat
  waits : Nat
  fails : Nat
  deriving DecidableEq, Repr

def Cnt.next (q : Cnt) : Eff → Cnt
  | .sent _ => { q with sends := q.sends + 1 }
  | .received _ => { q with recvs := q.recvs + 1 }
  | .closed => { q with closes := q.closes + 1 }
  | .waited => { q with waits := q.waits + 1 }
  | .failed => { q with fails := q.fails + 1 }
  | .other => q

/-- The counters of process `w` after a trace: the numbers of its successful
sends, successful receives, closes, successful waits, and failed sends or
receives. -/
def cnt (w : Who) (tr : List Act) : Cnt :=
  { sends := tr.countP fun a => decide (a.who = w) && a.eff.isSent
    recvs := tr.countP fun a => decide (a.who = w) && a.eff.isReceived
    closes := tr.countP fun a => decide (a.who = w) && decide (a.eff = .closed)
    waits := tr.countP fun a => decide (a.who = w) && decide (a.eff = .waited)
    fails := tr.countP fun a => decide (a.who = w) && decide (a.eff = .failed) }

/-- A contract on the connection behaviour of a program: what must hold of the
counters when an event happens, when the program exits, when it returns. -/
structure Spec where
  ok : Cnt → Eff → Prop
  exitOk : Cnt → Int → Prop
  retOk : Cnt → Int → Prop

/-- The program keeps the contract on every path, starting from counters `q`,
and never forks. -/
def Safe (S : Spec) : Cnt → Prog → Prop
  | q, .sys c k => c ≠ .fork ∧ ∀ r, S.ok q (effOf c r) ∧ Safe S (q.next (effOf c r)) (k r)
  | q, .exit st => S.exitOk q st
  | q, .ret v => S.retOk q v

/-- The contract of the Initiator.  `full` says that the program is the parent
branch of `main` (which goes on to `wait`) and not `process_a` alone. -/
def specA (full : Bool) : Spec where
  ok q e :=
    match e with
    | .sent m => q.sends = q.recvs ∧ q.sends < 10 ∧ q.closes = 0 ∧ m = PING
    | .received _ => q.sends = q.recvs + 1 ∧ q.closes = 0
    | .closed => q.sends = 10 ∧ q.recvs = 10 ∧ q.closes = 0
    | .waited => q.closes = 1 ∧ full = true
    | _ => True
  exitOk q st := st ≠ 0 ∧ (full = false → 0 < q.fails)
  retOk q v := v = 0 ∧ q.sends = 10 ∧ q.recvs = 10 ∧ q.closes = 1 ∧ (full = true → 0 < q.waits)

/-- The contract of the Responder. -/
def specB (full : Bool) : Spec where
  ok q e :=
    match e with
    | .sent m => q.recvs = q.sends + 1 ∧ q.sends < 10 ∧ q.closes = 0 ∧ m = PONG
    | .received _ => q.recvs = q.sends ∧ q.closes = 0
    | .closed => q.sends = 10 ∧ q.recvs = 10 ∧ q.closes = 0
    | .waited => False
    | _ => True
  exitOk q st :=
    (st = 0 ∧ q.sends = 10 ∧ q.recvs = 10 ∧ q.closes = 1 ∧ full = true) ∨
    (st ≠ 0 ∧ q.sends < 10 ∧ (full = false → 0 < q.fails))
  retOk q v := v = 0 ∧ q.sends = 10 ∧ q.recvs = 10 ∧ q.closes = 1 ∧ full = false

/-- The contract of `main` up to the `fork`: no connection event happens, the
process does not return, and at the `fork` the two continuations keep the
contracts of the Initiator and of the Responder (after a failed `fork` the
process stays alone). -/
def PreFork : Prog → Prop
  | .sys c k =>
    match c with
    | .fork =>
      (∀ r, 0 < r.val → Safe (specA true) ⟨0, 0, 0, 0, 0⟩ (k r)) ∧
        (∀ r, r.val < 0 → PreFork (k r)) ∧
        Safe (specB true) ⟨0, 0, 0, 0, 0⟩ (k ⟨0, []⟩)
    | _ => ∀ r, effOf c r = .other ∧ PreFork (k r)
  | .exit st => st ≠ 0
  | .ret _ => False

/-- The connection event of an effect of process `w`. -/
def connOf (w : Who) : Eff → Option ConnEv
  | .sent m => some (.sent w m)
  | .received m => some (.received w m)
  | _ => none

/-- The relation between the counters `qA` of the Initiator, the counters `qB`
of the Responder, the two queues and the sequence of connection events. -/
structure Core (qA qB : Cnt) (tc tp : List (List Nat)) (ct : List ConnEv) : Prop where
  chain : qA.recvs ≤ qB.sends ∧ qB.sends ≤ qB.recvs ∧ qB.recvs ≤ qA.sends ∧
    qA.sends ≤ qA.recvs + 1 ∧ qA.sends ≤ 10
  toChild : tc = List.replicate (qA.sends - qB.recvs) PING
  toParent : tp = List.replicate (qB.sends - qA.recvs) PONG
  conn : ct = (List.range (qA.sends + qB.recvs + qB.sends + qA.recvs)).map expectedAt
  closedA : 0 < qA.closes → qA.recvs = 10 ∧ qA.closes = 1
  closedB : 0 < qB.closes → qB.sends = 10 ∧ qB.closes = 1

/-- The invariant of the composed system: before the fork the parent is in the
setup part of `main` and nothing has happened on the connection; after it both
programs keep their contracts; the counters, queues and events are related by
`Core`; and once the parent's `wait` has returned the child has terminated. -/
structure Inv (full : Bool) (s : Sys) : Prop where
  progs :
    match s.child with
    | none => full = true ∧ PreFork s.parent ∧ cnt .parent s.trace = ⟨0, 0, 0, 0, 0⟩ ∧
        cnt .child s.trace = ⟨0, 0, 0, 0, 0⟩
    | some cp => Safe (specA full) (cnt .parent s.trace) s.parent ∧
        Safe (specB full) (cnt .child s.trace) cp
  core : Core (cnt .parent s.trace) (cnt .child s.trace) s.toChild s.toParent (connTrace s.trace)
  waited : 0 < (cnt .parent s.trace).waits → s.childDone = true

/-! ## Concrete runs -/

/-- The exit status of a terminated process. -/
def Prog.status : Prog → Option Int
  | .sys _ _ => none
  | .exit st => some st
  | .ret v => some v

/-- No `wait` has been called. -/
def NoWait (h : List Ev) : Prop := ∀ e ∈ h, e.call ≠ .wait

/-- What holds at the end of every run of `main`: a return from `main` has the
value 0 and comes right after `close`, `wait` and the final banner, with no
other `wait` before; a run that ends in `exit` has called no `wait`. -/
def WaitThenReturn (h : List Ev) : Outcome → Prop
  | .returned v => v = 0 ∧ ∃ pre fd r1 r2 r3,
      h = pre ++ [⟨.close fd, r1⟩, ⟨.wait, r2⟩, ⟨.printf "\n=== TCP-пингпонг завершен ===\n", r3⟩] ∧
        NoWait pre
  | .exited _ => NoWait h

/-- After a close, nothing is sent any more, and the only receive that may
still happen is one by the Initiator after the close of the Responder. -/
def Ordered (tr : List Act) : Prop :=
  ∀ (i j : Nat) (a b : Act), i < j → tr[i]? = some a → tr[j]? = some b → a.eff = Eff.closed →
    b.eff.isSent = false ∧ (b.eff.isReceived = true → b.who = Who.parent ∧ a.who = Who.child)

/-- Results for the parent: socket 3, the setup calls succeed, fork returns the
child's pid 77, accept returns descriptor 4; every later call returns 5 (the
length of a message). -/
def parentOracle : Nat → Res :=
  oracle [rv 3, rv 0, rv 0, rv 0, rv 0, rv 77, rv 4] (rv 5)

/-- Results for the child: as for the parent up to the fork, which returns 0;
then socket 5 and a successful connect; every later call returns 5. -/
def childOracle : Nat → Res :=
  oracle [rv 3, rv 0, rv 0, rv 0, rv 0, rv 0, rv 5, rv 0, rv 0] (rv 5)

/-- Results for a parent whose `accept` fails. -/
def acceptFailsOracle : Nat → Res :=
  oracle [rv 3, rv 0, rv 0, rv 0, rv 0, rv 77, rv (-1)] (rv 0)

/-- Results for a run in which the first `socket` call fails; `setsockopt` on
the invalid descriptor fails as well. -/
def socketFailsOracle : Nat → Res :=
  oracle [rv (-1), rv (-1)] (rv 0)

/-- Schedule items: a call of the parent, or of the child, that returns `v`. -/
def byParent (v : Int) : Who × Res := (.parent, rv v)

def byChild (v : Int) : Who × Res := (.child, rv v)

/-- The Initiator announces the iteration, sleeps, announces the send, sends. -/
def aSend : List (Who × Res) := [byParent 0, byParent 0, byParent 0, byParent 5]

/-- The Responder announces SLEEP, receives PING, announces READY. -/
def bRecv : List (Who × Res) := [byChild 0, (.child, ⟨5, PING⟩), byChild 0]

/-- The Responder announces the iteration, sleeps, announces the send, sends. -/
def bSend : List (Who × Res) := [byChild 0, byChild 0, byChild 0, byChild 5]

/-- The Initiator announces SLEEP, receives PONG, announces READY. -/
def aRecv : List (Who × Res) := [byParent 0, (.parent, ⟨5, PONG⟩), byParent 0]

/-- A complete run of `process_a` with `process_b` without failures, in which
the Responder closes its end right after its last send, before the Initiator
receives the last reply. -/
def pairSchedule : List (Who × Res) :=
  [byParent 0, byChild 0] ++ (List.replicate 9 (aSend ++ bRecv ++ bSend ++ aRecv)).flatten ++
    aSend ++ bRecv ++ bSend ++ [byChild 0] ++ aRecv ++ [byParent 0]

/-- A complete successful run of `main`: setup, fork, connect, accept, the
exchange, the child's exit, the parent's wait, banner and return. -/
def mainSchedule : List (Who × Res) :=
  [byParent 3, byParent 0, byParent 0, byParent 0, byParent 0, byParent 77,
    byChild 5, byChild 0, byChild 0, byParent 4] ++ pairSchedule ++ [byParent 77, byParent 0]

/-- The arguments of the calls that set up the two endpoints: TCP sockets, a
listener on the wildcard address and port `PORT` with backlog 1, a connection
to 127.0.0.1 on port `PORT`. -/
def EndpointOk : Call → Prop
  | .socket d t _ => d = AF_INET ∧ t = SOCK_STREAM
  | .bind _ a => a.sin_family = AF_INET ∧ a.sin_addr = INADDR_ANY ∧ a.sin_port = htons PORT
  | .listen _ b => b = 1
  | .connect _ a => a.sin_family = AF_INET ∧ a.sin_addr = [127, 0, 0, 1] ∧ a.sin_port = htons PORT
  | _ => True

/-- Every `send` is made on descriptor `fd` with the C string `msg` and its
length plus one. -/
def SendIs (fd : Int) (msg : List Nat) (c : Call) (_k : Res → Prog) : Prop :=
  match c with
  | .send fd' buf len _ => fd' = fd ∧ buf = msg ∧ len = strlen msg + 1
  | _ => True

/-- Every `close` is made on descriptor `fd`. -/
def CloseIs (fd : Int) (c : Call) (_k : Res → Prog) : Prop :=
  match c with
  | .close fd' => fd' = fd
  | _ => True

/-- The descriptors of the composition of `process_a` on `fdA` with `process_b`
on `fdB`: the two ends of the connection stay `fdA` and `fdB`, each program
closes only its own end, and every `close` that has happened was made by a
process on its own end and has closed it. -/
structure PairInv (fdA fdB : Int) (s : Sys) : Prop where
  parent : Prog.All (CloseIs fdA) s.parent
  child : ∃ cp, s.child = some cp ∧ Prog.All (CloseIs fdB) cp
  connP : s.connP = some fdA
  connC : s.connC = some fdB
  closesP : ∀ a ∈ s.trace, a.who = Who.parent → a.eff = Eff.closed →
    a.call = Call.close fdA ∧ s.closedP = true
  closesC : ∀ a ∈ s.trace, a.who = Who.child → a.eff = Eff.closed →
    a.call = Call.close fdB ∧ s.closedC = true

/-! ## Properties of single runs -/

theorem exec_sys (c : Call) (k : Res → Prog) (o : Nat → Res) :
    exec (.sys c k) o =
      (⟨c, o 0⟩ :: (exec (k (o 0)) (fun n => o (n + 1))).1,
        (exec (k (o 0)) (fun n => o (n + 1))).2) := rfl

theorem exec_all {φ : Call → (Res → Prog) → Prop} :
    ∀ (p : Prog), Prog.All φ p → ∀ (o : Nat → Res) (i : Nat) (e : Ev),
      (exec p o).1[i]? = some e →
      ∃ k, φ e.call k ∧
        exec (k e.res) (fun n => o (n + i + 1)) = ((exec p o).1.drop (i + 1), (exec p o).2) := by
  intro p
  induction p with
  | exit s => intro _ o i e h; simp [exec] at h
  | ret v => intro _ o i e h; simp [exec] at h
  | sys c k ih =>
    intro hall o i e h
    obtain ⟨hc, hk⟩ := hall
    rw [exec_sys] at h ⊢
    cases i with
    | zero =>
      simp at h
      subst h
      exact ⟨k, hc, rfl⟩
    | succ j =>
      simp only [List.getElem?_cons_succ] at h
      obtain ⟨k', hφ, hk'⟩ := ih (o 0) (hk (o 0)) (fun n => o (n + 1)) j e h
      exact ⟨k', hφ, by simpa using hk'⟩

theorem exec_paths {post : List Ev → Outcome → Prop} :
    ∀ (p : Prog) (h : List Ev), Prog.Paths post h p → ∀ (o : Nat → Res),
      post (h ++ (exec p o).1) (exec p o).2 := by
  intro p
  induction p with
  | exit s => intro h hp o; simpa [exec, Prog.Paths] using hp
  | ret v => intro h hp o; simpa [exec, Prog.Paths] using hp
  | sys c k ih =>
    intro h hp o
    have := ih (o 0) (h ++ [⟨c, o 0⟩]) (hp (o 0)) (fun n => o (n + 1))
    simpa [exec_sys] using this

theorem all_fatal {φ : Call → (Res → Prog) → Prop} (name : String)
    (h : ∀ k, φ (.perror name) k) : Prog.All φ (fatal name) := by
  simp [fatal, Prog.All, h]

theorem nodeOk_wait_for_message (sock : Int) (name : String) (k : Prog)
    (hk : Prog.All NodeOk k) : Prog.All NodeOk (wait_for_message sock name k) := by
  refine ⟨trivial, fun _ => ⟨⟨rfl, rfl, fun r hr => ?_⟩, fun r => ?_⟩⟩
  · simp [hr]; rfl
  · by_cases hr : r.val ≤ 0
    · simp [hr, Prog.All, NodeOk]
    · simp [hr, Prog.All, NodeOk, hk]

theorem nodeOk_send_message (sock : Int) (name : String) (msg : List Nat) (k : Prog)
    (hmsg : msg = cstr "PING" ∨ msg = cstr "PONG")
    (hk : Prog.All NodeOk k) : Prog.All NodeOk (send_message sock name msg k) := by
  refine ⟨trivial, fun _ => ⟨⟨rfl, rfl, hmsg, fun r hr => ?_⟩, fun r => ?_⟩⟩
  · simp [hr]; rfl
  · by_cases hr : r.val = -1
    · simp [hr, Prog.All, NodeOk]
    · simp [hr, hk]

theorem nodeOk_process_a_loop (fd : Int) (k : Prog) (hk : Prog.All NodeOk k) :
    ∀ n i, Prog.All NodeOk (process_a_loop fd n i k) := by
  intro n
  induction n with
  | zero => intro i; simpa [process_a_loop] using hk
  | succ n ih =>
    intro i
    refine ⟨trivial, fun _ => ⟨trivial, fun _ => ?_⟩⟩
    exact nodeOk_send_message _ _ _ _ (Or.inl rfl) (nodeOk_wait_for_message _ _ _ (ih _))

theorem nodeOk_process_b_loop (fd : Int) (k : Prog) (hk : Prog.All NodeOk k) :
    ∀ n i, Prog.All NodeOk (process_b_loop fd n i k) := by
  intro n
  induction n with
  | zero => intro i; simpa [process_b_loop] using hk
  | succ n ih =>
    intro i
    refine nodeOk_wait_for_message _ _ _ ⟨trivial, fun _ => ⟨trivial, fun _ => ?_⟩⟩
    exact nodeOk_send_message _ _ _ _ (Or.inr rfl) (ih _)

theorem nodeOk_main_child : Prog.All NodeOk main_child := by
  refine ⟨⟨rfl, rfl, rfl⟩, fun sock => ?_⟩
  by_cases hs : sock.val < 0
  · simp [hs, Prog.All, NodeOk]
  · have hp : ¬ (inet_pton AF_INET "127.0.0.1").1 ≤ 0 := by decide
    simp only [hs, hp, if_false]
    refine ⟨trivial, fun _ => ⟨⟨?_, fun r hr => ?_⟩, fun r => ?_⟩⟩
    · decide
    · simp [hr]; rfl
    · by_cases hr : r.val < 0
      · simp [hr, Prog.All, NodeOk]
      · simp only [hr, if_false]
        refine ⟨trivial, fun _ => nodeOk_process_b_loop _ _ ?_ _ _⟩
        simp [Prog.All, NodeOk]

theorem nodeOk_main_parent (server_fd : Int) : Prog.All NodeOk (main_parent server_fd) := by
  refine ⟨fun r hr => ?_, fun r => ?_⟩
  · simp [hr]; rfl
  · by_cases hr : r.val < 0
    · simp [hr, Prog.All, NodeOk]
    · simp only [hr, if_false]
      refine ⟨trivial, fun _ => nodeOk_process_a_loop _ _ ?_ _ _⟩
      simp [Prog.All, NodeOk]

theorem nodeOk_main : Prog.All NodeOk main := by
  refine ⟨⟨rfl, rfl, rfl⟩, fun fd => ?_⟩
  by_cases h0 : fd.val = 0
  · simp [h0, Prog.All, NodeOk]
  simp only [h0, if_false]
  refine ⟨⟨rfl, by decide, rfl⟩, fun so => ?_⟩
  by_cases h1 : so.val ≠ 0
  · simp [h1, Prog.All, NodeOk]
  simp only [h1, if_false]
  refine ⟨⟨by decide, fun r hr => by simp [hr]; rfl⟩, fun b => ?_⟩
  by_cases h2 : b.val < 0
  · simp [h2, Prog.All, NodeOk]
  simp only [h2, if_false]
  refine ⟨⟨rfl, fun r hr => by simp [hr]; rfl⟩, fun l => ?_⟩
  by_cases h3 : l.val < 0
  · simp [h3, Prog.All, NodeOk]
  simp only [h3, if_false]
  refine ⟨trivial, fun _ => ⟨trivial, fun pid => ?_⟩⟩
  by_cases h4 : pid.val < 0
  · simp [h4, Prog.All, NodeOk]
  simp only [h4, if_false]
  by_cases h5 : pid.val = 0
  · simp only [h5, if_true]; exact nodeOk_main_child
  · simp only [h5, if_false]; exact nodeOk_main_parent _



/-! ## Properties of the steps -/

@[simp] theorem prog_setProg_self (s : Sys) (w : Who) (p : Prog) :
    (s.setProg w p).prog w = some p := by
  cases w <;> rfl

@[simp] theorem prog_setProg_peer (s : Sys) (w : Who) (p : Prog) :
    (s.setProg w p).prog w.peer = s.prog w.peer := by
  cases w <;> rfl

@[simp] theorem inbox_setProg (s : Sys) (w w' : Who) (p : Prog) :
    (s.setProg w p).inbox w' = s.inbox w' := by
  cases w <;> cases w' <;> rfl

@[simp] theorem inbox_setInbox_self (s : Sys) (w : Who) (q : List (List Nat)) :
    (s.setInbox w q).inbox w = q := by
  cases w <;> rfl

@[simp] theorem inbox_setInbox_peer (s : Sys) (w : Who) (q : List (List Nat)) :
    (s.setInbox w.peer q).inbox w = s.inbox w := by
  cases w <;> rfl

@[simp] theorem inbox_setInbox_peer2 (s : Sys) (w : Who) (q : List (List Nat)) :
    (s.setInbox w q).inbox w.peer = s.inbox w.peer := by
  cases w <;> rfl

@[simp] theorem inbox_setClosed (s : Sys) (w w' : Who) :
    (s.setClosed w).inbox w' = s.inbox w' := by
  cases w <;> cases w' <;> rfl

@[simp] theorem prog_setInbox (s : Sys) (w w' : Who) (q : List (List Nat)) :
    (s.setInbox w q).prog w' = s.prog w' := by
  cases w <;> cases w' <;> rfl

@[simp] theorem prog_setClosed (s : Sys) (w w' : Who) :
    (s.setClosed w).prog w' = s.prog w' := by
  cases w <;> cases w' <;> rfl

theorem qeffect_refl (s : Sys) (w : Who) (e : Eff) (h1 : e.isSent = false)
    (h2 : e.isReceived = false) : QEffect s s w e := by
  cases e <;> simp_all [QEffect, QEff, Eff.isSent, Eff.isReceived]

theorem world_spec {s s1 : Sys} {w : Who} {c : Call} {r : Res}
    (h : world s w c r = some s1) :
    (∀ w', s1.prog w' = s.prog w') ∧ s1.trace = s.trace ∧ QEffect s s1 w (effOf c r) ∧
      (effOf c r = .waited → w = .parent → s.child.isSome = true → s.childDone = true) := by
  cases c <;> simp only [world] at h
  case accept fd =>
    split_ifs at h <;> simp at h <;> subst h
    · exact ⟨fun _ => rfl, rfl, qeffect_refl _ _ _ rfl rfl, by simp [effOf]⟩
    · exact ⟨fun w' => by cases w' <;> rfl, rfl, by cases w <;> simp [effOf, QEffect, QEff, Sys.inbox],
        by simp [effOf]⟩
  case connect fd a =>
    split_ifs at h <;> simp at h <;> subst h
    · exact ⟨fun _ => rfl, rfl, qeffect_refl _ _ _ rfl rfl, by simp [effOf]⟩
    · exact ⟨fun w' => by cases w' <;> rfl, rfl, by cases w <;> simp [effOf, QEffect, QEff, Sys.inbox],
        by simp [effOf]⟩
  case send fd buf len fl =>
    split_ifs at h with h1 h2 <;> simp at h <;> subst h
    · exact ⟨fun _ => rfl, rfl, by simp [effOf, h1, QEffect, QEff], by simp [effOf, h1]⟩
    · exact ⟨fun w' => by simp, by cases w <;> rfl, by simp [effOf, h1, QEffect, QEff],
        by simp [effOf, h1]⟩
  case recv fd len fl =>
    split_ifs at h with h1 h2 h3
    · split at h
      · next m rest hin =>
        split_ifs at h with h4
        simp at h; subst h
        refine ⟨fun w' => by simp, by cases w <;> rfl, ?_, by simp [effOf, h1]⟩
        simp [effOf, h1, QEffect, QEff, hin, h4.2.1]
      · simp at h
    · simp at h; subst h
      exact ⟨fun _ => rfl, rfl, by simp [effOf, h1, QEffect, QEff], by simp [effOf, h1]⟩
    · simp at h; subst h
      exact ⟨fun _ => rfl, rfl, by simp [effOf, h1, QEffect, QEff], by simp [effOf, h1]⟩
  case close fd =>
    simp at h; subst h
    split_ifs
    · exact ⟨fun w' => by simp, by cases w <;> rfl, by simp [effOf, QEffect, QEff], by simp [effOf]⟩
    · exact ⟨fun _ => rfl, rfl, by simp [effOf, QEffect, QEff], by simp [effOf]⟩
  case wait =>
    split_ifs at h with h1 h2 h3 <;> simp at h <;> subst h
    · exact ⟨fun _ => rfl, rfl, by simp [effOf, QEffect, QEff], fun _ _ _ => h2.2⟩
    · exact ⟨fun _ => rfl, rfl, by simp [effOf, QEffect, QEff], fun _ hw hc => absurd ⟨hw, hc⟩ h3⟩
  all_goals
    simp at h; subst h
    exact ⟨fun _ => rfl, rfl, by simp [effOf, QEffect, QEff], by simp [effOf]⟩

/-- What a step does: the stepping process had a call `c` pending and continues
with the result; the trace grows by that call; the queues change as the event
says. -/
theorem step_spec {w : Who} {r : Res} {s s' : Sys} (h : step w r s = some s') :
    ∃ c k, s.prog w = some (.sys c k) ∧ s'.trace = s.trace ++ [⟨w, c, r⟩] ∧
      QEffect s s' w (effOf c r) ∧
      (effOf c r = .waited → w = .parent → s.child.isSome = true → s.childDone = true) ∧
      ((c = .fork ∧ 0 < r.val ∧ w = .parent ∧ s.child = none ∧ s'.parent = k r ∧
          s'.child = some (k ⟨0, []⟩)) ∨
        ((c = .fork → r.val < 0) ∧ s'.prog w = some (k r) ∧ s'.prog w.peer = s.prog w.peer)) := by
  unfold step at h
  split at h
  · next c k hp =>
    refine ⟨c, k, hp, ?_⟩
    split at h
    · split_ifs at h with h1 h2
      · simp at h; subst h
        refine ⟨rfl, by cases w <;> simp [effOf, QEffect, QEff, Sys.setProg, Sys.inbox], by simp [effOf],
          Or.inr ⟨fun _ => h1, ?_, ?_⟩⟩
        · cases w <;> rfl
        · cases w <;> rfl
      · simp at h; subst h
        obtain ⟨hw, hc, hr⟩ := h2
        refine ⟨rfl, by cases w <;> simp [effOf, QEffect, QEff, Sys.inbox], by simp [effOf],
          Or.inl ⟨rfl, hr, hw, by simpa using hc, rfl, rfl⟩⟩
    · next hnf =>
      split at h
      · next s1 hw =>
        simp at h; subst h
        obtain ⟨h1, h2, h3, h4⟩ := world_spec hw
        refine ⟨by simp [h2], ?_, h4, Or.inr ⟨fun hc => absurd hc (by simpa using hnf), ?_, ?_⟩⟩
        · cases hE : effOf c r <;> simp only [hE, QEffect, QEff] at h3 ⊢ <;>
            cases w <;> simpa [Sys.inbox, Sys.setProg] using h3
        · cases w <;> rfl
        · cases w
          · simpa [Sys.prog, Sys.setProg, Who.peer] using h1 .child
          · simpa [Sys.prog, Sys.setProg, Who.peer] using h1 .parent
      · simp at h
  · simp at h



/-! ## Counters and connection events of a growing trace -/

theorem cnt_snoc_self (w : Who) (tr : List Act) (c : Call) (r : Res) :
    cnt w (tr ++ [⟨w, c, r⟩]) = (cnt w tr).next (effOf c r) := by
  cases hE : effOf c r <;>
    simp [cnt, Cnt.next, List.countP_append, List.countP_cons, Act.eff, hE, Eff.isSent,
      Eff.isReceived]

theorem cnt_snoc_peer (w w' : Who) (tr : List Act) (c : Call) (r : Res) (h : w ≠ w') :
    cnt w' (tr ++ [⟨w, c, r⟩]) = cnt w' tr := by
  simp [cnt, List.countP_append, List.countP_cons, h]

theorem connTrace_snoc (tr : List Act) (a : Act) :
    connTrace (tr ++ [a]) = connTrace tr ++ (connEvent a).toList := by
  simp only [connTrace, List.filterMap_append]
  cases h : connEvent a <;> simp [List.filterMap, h]

/-! ## The code keeps its contracts -/

theorem safe_sys (S : Spec) (q : Cnt) (c : Call) (k : Res → Prog) :
    Safe S q (.sys c k) =
      (c ≠ .fork ∧ ∀ r, S.ok q (effOf c r) ∧ Safe S (q.next (effOf c r)) (k r)) := rfl

theorem safeA_wait_for_message (full : Bool) (fd : Int) (name : String) (k : Prog) (q : Cnt)
    (h1 : q.sends = q.recvs + 1) (h2 : q.closes = 0)
    (hk : Safe (specA full) { q with recvs := q.recvs + 1 } k) :
    Safe (specA full) q (wait_for_message fd name k) := by
  unfold wait_for_message
  simp only [safe_sys]
  refine ⟨by simp, fun _ => ⟨by simp [effOf, specA], by simp, fun r => ?_⟩⟩
  by_cases hr : 0 < r.val
  · have hr' : ¬ r.val ≤ 0 := by omega
    simp only [effOf, hr, hr', if_true, if_false, Cnt.next, safe_sys]
    exact ⟨by simp [specA, h1, h2], by simp, fun _ => ⟨by simp [specA], hk⟩⟩
  · have hr' : r.val ≤ 0 := by omega
    simp only [effOf, hr, hr', if_true, if_false, Cnt.next, safe_sys]
    exact ⟨by simp [specA], by simp, fun _ => ⟨by simp [specA], by simp [Safe, specA]⟩⟩

theorem safeA_send_message (full : Bool) (fd : Int) (name : String) (k : Prog) (q : Cnt)
    (h1 : q.sends = q.recvs) (h2 : q.closes = 0) (h3 : q.sends < 10)
    (hk : Safe (specA full) { q with sends := q.sends + 1 } k) :
    Safe (specA full) q (send_message fd name (cstr "PING") k) := by
  unfold send_message
  simp only [safe_sys]
  refine ⟨by simp, fun _ => ⟨by simp [effOf, specA], by simp, fun r => ?_⟩⟩
  by_cases hr : r.val = -1
  · simp only [effOf, hr, if_true, Cnt.next, safe_sys]
    exact ⟨by simp [specA], by simp, fun _ => ⟨by simp [specA], by simp [Safe, specA]⟩⟩
  · simp only [effOf, hr, if_false, Cnt.next]
    refine ⟨⟨h1, h3, h2, ?_⟩, hk⟩
    decide

theorem safeA_loop (full : Bool) (fd : Int) (k : Prog) :
    ∀ (n i : Nat) (q : Cnt), q.sends + n = 10 → q.recvs = q.sends → q.closes = 0 →
      (∀ q' : Cnt, q'.sends = 10 → q'.recvs = 10 → q'.closes = 0 → q'.waits = q.waits →
        Safe (specA full) q' k) →
      Safe (specA full) q (process_a_loop fd n i k) := by
  intro n
  induction n with
  | zero =>
    intro i q h1 h2 h3 hk
    exact hk q (by omega) (by omega) h3 rfl
  | succ n ih =>
    intro i q h1 h2 h3 hk
    unfold process_a_loop
    simp only [safe_sys]
    refine ⟨by simp, fun _ => ⟨by simp [effOf, specA], by simp, fun _ =>
      ⟨by simp [effOf, specA], ?_⟩⟩⟩
    simp only [effOf, Cnt.next]
    refine safeA_send_message _ _ _ _ _ h2.symm h3 (by omega) ?_
    refine safeA_wait_for_message _ _ _ _ _ ?_ h3 ?_
    · simp [h2]
    · refine ih _ _ ?_ ?_ h3 ?_
      · simp; omega
      · simp [h2]
      · simpa using hk

theorem safeA_process_a (fd : Int) :
    Safe (specA false) ⟨0, 0, 0, 0, 0⟩ (process_a fd (.ret 0)) := by
  unfold process_a
  simp only [safe_sys]
  refine ⟨by simp, fun _ => ⟨by simp [effOf, specA], ?_⟩⟩
  simp only [effOf, Cnt.next]
  apply safeA_loop _ _ _ _ _ _ (by decide) rfl rfl
  intro q' h1 h2 h3 _
  simp only [safe_sys]
  exact ⟨by simp, fun _ => ⟨by simp [effOf, specA, h1, h2, h3],
    by simp [effOf, Cnt.next, Safe, specA, h1, h2, h3]⟩⟩

theorem safeA_main_parent (fd : Int) :
    Safe (specA true) ⟨0, 0, 0, 0, 0⟩ (main_parent fd) := by
  unfold main_parent
  simp only [safe_sys]
  refine ⟨by simp, fun r => ⟨by simp [effOf, specA], ?_⟩⟩
  simp only [effOf, Cnt.next]
  by_cases hr : r.val < 0
  · simp only [hr, if_true, safe_sys]
    exact ⟨by simp, fun _ => ⟨by simp [effOf, specA], by simp [Safe, specA, EXIT_FAILURE]⟩⟩
  · simp only [hr, if_false]
    unfold process_a
    simp only [safe_sys]
    refine ⟨by simp, fun _ => ⟨by simp [effOf, specA], ?_⟩⟩
    simp only [effOf, Cnt.next]
    apply safeA_loop _ _ _ _ _ _ (by decide) rfl rfl
    intro q' h1 h2 h3 _
    simp only [safe_sys]
    refine ⟨by simp, fun _ => ⟨by simp [effOf, specA, h1, h2, h3], by simp, fun _ =>
      ⟨by simp [effOf, specA, Cnt.next, h3], by simp, fun _ =>
        ⟨by simp [effOf, specA], by simp [effOf, Cnt.next, Safe, specA, h1, h2, h3]⟩⟩⟩⟩



theorem safeB_wait_for_message (full : Bool) (fd : Int) (name : String) (k : Prog) (q : Cnt)
    (h1 : q.recvs = q.sends) (h2 : q.closes = 0) (h3 : q.sends < 10)
    (hk : Safe (specB full) { q with recvs := q.recvs + 1 } k) :
    Safe (specB full) q (wait_for_message fd name k) := by
  unfold wait_for_message
  simp only [safe_sys]
  refine ⟨by simp, fun _ => ⟨by simp [effOf, specB], by simp, fun r => ?_⟩⟩
  by_cases hr : 0 < r.val
  · have hr' : ¬ r.val ≤ 0 := by omega
    simp only [effOf, hr, hr', if_true, if_false, Cnt.next, safe_sys]
    exact ⟨by simp [specB, h1, h2], by simp, fun _ => ⟨by simp [specB], hk⟩⟩
  · have hr' : r.val ≤ 0 := by omega
    simp only [effOf, hr, hr', if_true, if_false, Cnt.next, safe_sys]
    exact ⟨by simp [specB], by simp, fun _ => ⟨by simp [specB], by simp [Safe, specB, h3]⟩⟩

theorem safeB_send_message (full : Bool) (fd : Int) (name : String) (k : Prog) (q : Cnt)
    (h1 : q.recvs = q.sends + 1) (h2 : q.closes = 0) (h3 : q.sends < 10)
    (hk : Safe (specB full) { q with sends := q.sends + 1 } k) :
    Safe (specB full) q (send_message fd name (cstr "PONG") k) := by
  unfold send_message
  simp only [safe_sys]
  refine ⟨by simp, fun _ => ⟨by simp [effOf, specB], by simp, fun r => ?_⟩⟩
  by_cases hr : r.val = -1
  · simp only [effOf, hr, if_true, Cnt.next, safe_sys]
    exact ⟨by simp [specB], by simp, fun _ => ⟨by simp [specB], by simp [Safe, specB, h3]⟩⟩
  · simp only [effOf, hr, if_false, Cnt.next]
    refine ⟨⟨h1, h3, h2, ?_⟩, hk⟩
    decide

theorem safeB_loop (full : Bool) (fd : Int) (k : Prog) :
    ∀ (n i : Nat) (q : Cnt), q.sends + n = 10 → q.recvs = q.sends → q.closes = 0 →
      (∀ q' : Cnt, q'.sends = 10 → q'.recvs = 10 → q'.closes = 0 → Safe (specB full) q' k) →
      Safe (specB full) q (process_b_loop fd n i k) := by
  intro n
  induction n with
  | zero =>
    intro i q h1 h2 h3 hk
    exact hk q (by omega) (by omega) h3
  | succ n ih =>
    intro i q h1 h2 h3 hk
    unfold process_b_loop
    refine safeB_wait_for_message _ _ _ _ _ h2 h3 (by omega) ?_
    simp only [safe_sys]
    refine ⟨by simp, fun _ => ⟨by simp [effOf, specB], by simp, fun _ =>
      ⟨by simp [effOf, specB], ?_⟩⟩⟩
    simp only [effOf, Cnt.next]
    refine safeB_send_message _ _ _ _ _ ?_ h3 (by simp; omega) ?_
    · simp [h2]
    · refine ih _ _ ?_ ?_ h3 hk
      · simp; omega
      · simp [h2]

theorem safeB_process_b (fd : Int) :
    Safe (specB false) ⟨0, 0, 0, 0, 0⟩ (process_b fd (.ret 0)) := by
  unfold process_b
  simp only [safe_sys]
  refine ⟨by simp, fun _ => ⟨by simp [effOf, specB], ?_⟩⟩
  simp only [effOf, Cnt.next]
  apply safeB_loop _ _ _ _ _ _ (by decide) rfl rfl
  intro q' h1 h2 h3
  simp only [safe_sys]
  exact ⟨by simp, fun _ => ⟨by simp [effOf, specB, h1, h2, h3],
    by simp [effOf, Cnt.next, Safe, specB, h1, h2, h3]⟩⟩

theorem safeB_main_child : Safe (specB true) ⟨0, 0, 0, 0, 0⟩ main_child := by
  unfold main_child
  simp only [safe_sys]
  refine ⟨by simp, fun sock => ⟨by simp [effOf, specB], ?_⟩⟩
  simp only [effOf, Cnt.next]
  by_cases hs : sock.val < 0
  · simp only [hs, if_true, safe_sys]
    exact ⟨by simp, fun _ => ⟨by simp [effOf, specB],
      by simp [Safe, specB, EXIT_FAILURE, effOf, Cnt.next]⟩⟩
  · have hp : ¬ (inet_pton AF_INET "127.0.0.1").1 ≤ 0 := by decide
    simp only [hs, hp, if_false, safe_sys]
    refine ⟨by simp, fun _ => ⟨by simp [effOf, specB], by simp, fun r => ⟨by simp [effOf, specB], ?_⟩⟩⟩
    simp only [effOf, Cnt.next]
    by_cases hr : r.val < 0
    · simp only [hr, if_true, safe_sys]
      exact ⟨by simp, fun _ => ⟨by simp [effOf, specB],
      by simp [Safe, specB, EXIT_FAILURE, effOf, Cnt.next]⟩⟩
    · simp only [hr, if_false]
      unfold process_b
      simp only [safe_sys]
      refine ⟨by simp, fun _ => ⟨by simp [effOf, specB], ?_⟩⟩
      simp only [effOf, Cnt.next]
      apply safeB_loop _ _ _ _ _ _ (by decide) rfl rfl
      intro q' h1 h2 h3
      simp only [safe_sys]
      exact ⟨by simp, fun _ => ⟨by simp [effOf, specB, h1, h2, h3],
        by simp [effOf, Cnt.next, Safe, specB, h1, h2, h3]⟩⟩

theorem preFork_fatal (name : String) : PreFork (fatal name) := by
  simp [fatal, PreFork, effOf]

theorem preFork_main : PreFork main := by
  unfold main
  simp only [PreFork]
  intro fd
  refine ⟨rfl, ?_⟩
  by_cases h0 : fd.val = 0
  · simp only [h0, if_true]; exact preFork_fatal _
  simp only [h0, if_false, PreFork]
  intro so
  refine ⟨rfl, ?_⟩
  by_cases h1 : so.val ≠ 0
  · rw [if_pos h1]; exact preFork_fatal _
  rw [if_neg h1]
  simp only [PreFork]
  intro b
  refine ⟨rfl, ?_⟩
  by_cases h2 : b.val < 0
  · simp only [h2, if_true]; exact preFork_fatal _
  simp only [h2, if_false, PreFork]
  intro l
  refine ⟨rfl, ?_⟩
  by_cases h3 : l.val < 0
  · simp only [h3, if_true]; exact preFork_fatal _
  simp only [h3, if_false, PreFork]
  intro _
  refine ⟨rfl, ?_, ?_, ?_⟩
  · intro pid hpid
    have h4 : ¬ pid.val < 0 := by omega
    have h5 : ¬ pid.val = 0 := by omega
    simp only [h4, h5, if_false]
    exact safeA_main_parent _
  · intro pid hpid
    simp only [hpid, if_true]
    exact preFork_fatal _
  · exact safeB_main_child



/-! ## The invariant is kept by every step -/

theorem connEvent_eq (w : Who) (c : Call) (r : Res) :
    connEvent ⟨w, c, r⟩ = connOf w (effOf c r) := by
  simp only [connEvent, Act.eff, connOf]

theorem range_map_succ (f : Nat → ConnEv) (n : Nat) :
    (List.range (n + 1)).map f = (List.range n).map f ++ [f n] := by
  simp [List.range_succ]

theorem replicate_eq_cons {α : Type} {n : Nat} {a m : α} {l : List α}
    (h : List.replicate n a = m :: l) : m = a ∧ l = List.replicate (n - 1) a ∧ 0 < n := by
  cases n with
  | zero => simp at h
  | succ n =>
    simp [List.replicate_succ] at h
    exact ⟨h.1.symm, by simpa using h.2.symm, by omega⟩

theorem core_stepA {full : Bool} {qA qB : Cnt} {tc tp tc' tp' : List (List Nat)}
    {ct : List ConnEv} {e : Eff} (hc : Core qA qB tc tp ct) (hok : (specA full).ok qA e)
    (hq : QEff tp tc tp' tc' e) :
    Core (qA.next e) qB tc' tp' (ct ++ (connOf .parent e).toList) := by
  obtain ⟨⟨c1, c2, c3, c4, c5⟩, htc, htp, hct, hcA, hcB⟩ := hc
  cases e with
  | sent m =>
    obtain ⟨o1, o2, o3, o4⟩ := hok
    obtain ⟨q1, q2⟩ := hq
    subst o4
    have e1 : qA.sends - qB.recvs = 0 := by omega
    refine ⟨by simp [Cnt.next]; omega, ?_, ?_, ?_, ?_, hcB⟩
    · have e2 : qA.sends + 1 - qB.recvs = 1 := by omega
      simp [Cnt.next, q1, htc, e1, e2]
    · simp [Cnt.next, q2, htp]
    · have e3 : qA.sends + 1 + qB.recvs + qB.sends + qA.recvs =
          (qA.sends + qB.recvs + qB.sends + qA.recvs) + 1 := by omega
      have e4 : (qA.sends + qB.recvs + qB.sends + qA.recvs) % 4 = 0 := by omega
      simp [Cnt.next, connOf, e3, range_map_succ, hct, expectedAt, e4]
    · simp [Cnt.next, o3]
  | received m =>
    obtain ⟨o1, o2⟩ := hok
    obtain ⟨q1, q2⟩ := hq
    rw [htp] at q1
    obtain ⟨r1, r2, r3⟩ := replicate_eq_cons q1
    subst r1
    refine ⟨by simp [Cnt.next]; omega, ?_, ?_, ?_, ?_, hcB⟩
    · have e2 : qA.sends - qB.recvs = 0 := by omega
      simp [Cnt.next, q2, htc]
    · have e2 : qB.sends - (qA.recvs + 1) = qB.sends - qA.recvs - 1 := by omega
      simp [Cnt.next, r2, e2]
    · have e3 : qA.sends + qB.recvs + qB.sends + (qA.recvs + 1) =
          (qA.sends + qB.recvs + qB.sends + qA.recvs) + 1 := by omega
      have e4 : (qA.sends + qB.recvs + qB.sends + qA.recvs) % 4 = 3 := by omega
      simp [Cnt.next, connOf, e3, range_map_succ, hct, expectedAt, e4]
    · simp [Cnt.next, o2]
  | closed =>
    obtain ⟨o1, o2, o3⟩ := hok
    obtain ⟨q1, q2⟩ := hq
    subst q1 q2
    exact ⟨by simp [Cnt.next]; omega, by simpa [Cnt.next] using htc,
      by simpa [Cnt.next] using htp, by simpa [Cnt.next, connOf] using hct,
      by simp [Cnt.next, o2, o3], hcB⟩
  | waited =>
    obtain ⟨q1, q2⟩ := hq
    subst q1 q2
    exact ⟨by simp [Cnt.next]; omega, by simpa [Cnt.next] using htc,
      by simpa [Cnt.next] using htp, by simpa [Cnt.next, connOf] using hct,
      by simpa [Cnt.next] using hcA, hcB⟩
  | failed =>
    obtain ⟨q1, q2⟩ := hq
    subst q1 q2
    exact ⟨by simp [Cnt.next]; omega, by simpa [Cnt.next] using htc,
      by simpa [Cnt.next] using htp, by simpa [Cnt.next, connOf] using hct,
      by simpa [Cnt.next] using hcA, hcB⟩
  | other =>
    obtain ⟨q1, q2⟩ := hq
    subst q1 q2
    exact ⟨by simp [Cnt.next]; omega, by simpa [Cnt.next] using htc,
      by simpa [Cnt.next] using htp, by simpa [Cnt.next, connOf] using hct,
      by simpa [Cnt.next] using hcA, hcB⟩



theorem core_stepB {full : Bool} {qA qB : Cnt} {tc tp tc' tp' : List (List Nat)}
    {ct : List ConnEv} {e : Eff} (hc : Core qA qB tc tp ct) (hok : (specB full).ok qB e)
    (hq : QEff tc tp tc' tp' e) :
    Core qA (qB.next e) tc' tp' (ct ++ (connOf .child e).toList) := by
  obtain ⟨⟨c1, c2, c3, c4, c5⟩, htc, htp, hct, hcA, hcB⟩ := hc
  cases e with
  | sent m =>
    obtain ⟨o1, o2, o3, o4⟩ := hok
    obtain ⟨q1, q2⟩ := hq
    subst o4
    refine ⟨by simp [Cnt.next]; omega, ?_, ?_, ?_, hcA, ?_⟩
    · simp [Cnt.next, q2, htc]
    · have e1 : qB.sends - qA.recvs = 0 := by omega
      have e2 : qB.sends + 1 - qA.recvs = 1 := by omega
      simp [Cnt.next, q1, htp, e1, e2]
    · have e3 : qA.sends + qB.recvs + (qB.sends + 1) + qA.recvs =
          (qA.sends + qB.recvs + qB.sends + qA.recvs) + 1 := by omega
      have e4 : (qA.sends + qB.recvs + qB.sends + qA.recvs) % 4 = 2 := by omega
      simp [Cnt.next, connOf, e3, range_map_succ, hct, expectedAt, e4]
    · simp [Cnt.next, o3]
  | received m =>
    obtain ⟨o1, o2⟩ := hok
    obtain ⟨q1, q2⟩ := hq
    rw [htc] at q1
    obtain ⟨r1, r2, r3⟩ := replicate_eq_cons q1
    subst r1
    refine ⟨by simp [Cnt.next]; omega, ?_, ?_, ?_, hcA, ?_⟩
    · have e2 : qA.sends - (qB.recvs + 1) = qA.sends - qB.recvs - 1 := by omega
      simp [Cnt.next, r2, e2]
    · simp [Cnt.next, q2, htp]
    · have e3 : qA.sends + (qB.recvs + 1) + qB.sends + qA.recvs =
          (qA.sends + qB.recvs + qB.sends + qA.recvs) + 1 := by omega
      have e4 : (qA.sends + qB.recvs + qB.sends + qA.recvs) % 4 = 1 := by omega
      simp [Cnt.next, connOf, e3, range_map_succ, hct, expectedAt, e4]
    · simp [Cnt.next, o2]
  | closed =>
    obtain ⟨o1, o2, o3⟩ := hok
    obtain ⟨q1, q2⟩ := hq
    subst q1 q2
    exact ⟨by simp [Cnt.next]; omega, by simpa [Cnt.next] using htc,
      by simpa [Cnt.next] using htp, by simpa [Cnt.next, connOf] using hct, hcA,
      by simp [Cnt.next, o1, o3]⟩
  | waited => exact absurd hok (by simp [specB])
  | failed =>
    obtain ⟨q1, q2⟩ := hq
    subst q1 q2
    exact ⟨by simp [Cnt.next]; omega, by simpa [Cnt.next] using htc,
      by simpa [Cnt.next] using htp, by simpa [Cnt.next, connOf] using hct, hcA,
      by simpa [Cnt.next] using hcB⟩
  | other =>
    obtain ⟨q1, q2⟩ := hq
    subst q1 q2
    exact ⟨by simp [Cnt.next]; omega, by simpa [Cnt.next] using htc,
      by simpa [Cnt.next] using htp, by simpa [Cnt.next, connOf] using hct, hcA,
      by simpa [Cnt.next] using hcB⟩



theorem preFork_sys {c : Call} {k : Res → Prog} (h : PreFork (.sys c k)) (r : Res)
    (hr : c = .fork → r.val < 0) : effOf c r = .other ∧ PreFork (k r) := by
  cases c
  case fork => exact ⟨rfl, h.2.1 r (hr rfl)⟩
  all_goals exact h r

theorem core_other {qA qB : Cnt} {s s' : Sys} {w : Who} {c : Call} {r : Res}
    (hc : Core qA qB s.toChild s.toParent (connTrace s.trace))
    (htr : s'.trace = s.trace ++ [⟨w, c, r⟩]) (he : effOf c r = .other)
    (hq : QEffect s s' w (effOf c r)) :
    Core qA qB s'.toChild s'.toParent (connTrace s'.trace) := by
  rw [he] at hq
  have h12 : s'.toChild = s.toChild ∧ s'.toParent = s.toParent := by
    cases w <;> simp only [QEffect, QEff, Sys.inbox, Who.peer] at hq <;> simp [hq]
  obtain ⟨h1, h2⟩ := h12
  have h3 : connTrace s'.trace = connTrace s.trace := by
    rw [htr, connTrace_snoc, connEvent_eq, he]; simp [connOf]
  rw [h1, h2, h3]; exact hc

theorem cnt_other (w w' : Who) (tr : List Act) (c : Call) (r : Res) (he : effOf c r = .other) :
    cnt w' (tr ++ [⟨w, c, r⟩]) = cnt w' tr := by
  by_cases h : w = w'
  · subst h; rw [cnt_snoc_self, he]; rfl
  · exact cnt_snoc_peer _ _ _ _ _ h

theorem inv_step {full : Bool} {s s' : Sys} {w : Who} {r : Res} (hI : Inv full s)
    (h : step w r s = some s') : Inv full s' := by
  obtain ⟨c, k, hp, htr, hq, hwait, hcase⟩ := step_spec h
  rcases hcase with ⟨hc, hr, hw, hchild, hpar', hch'⟩ | ⟨hnf, hpw, hpp⟩
  · -- a successful fork
    subst hc hw
    have he : effOf .fork r = .other := rfl
    have hprogs := hI.progs
    rw [hchild] at hprogs
    obtain ⟨hfull, hpre, hA, hB⟩ := hprogs
    have hpar : s.parent = .sys .fork k := by simpa [Sys.prog] using hp
    rw [hpar] at hpre
    have cA : cnt .parent s'.trace = cnt .parent s.trace := by rw [htr, cnt_other _ _ _ _ _ he]
    have cB : cnt .child s'.trace = cnt .child s.trace := by rw [htr, cnt_other _ _ _ _ _ he]
    refine ⟨?_, ?_, ?_⟩
    · rw [hch']
      simp only
      rw [cA, cB, hA, hB, hpar', hfull]
      exact ⟨hpre.1 r hr, hpre.2.2⟩
    · rw [cA, cB]; exact core_other hI.core htr he hq
    · rw [cA, hA]; simp
  · cases w
    · -- the parent steps
      have hpar : s.parent = .sys c k := by simpa [Sys.prog] using hp
      have hpar' : s'.parent = k r := by simpa [Sys.prog] using hpw
      have hch' : s'.child = s.child := by simpa [Sys.prog, Who.peer] using hpp
      have cB : cnt .child s'.trace = cnt .child s.trace := by
        rw [htr, cnt_snoc_peer _ _ _ _ _ (by decide)]
      have cA : cnt .parent s'.trace = (cnt .parent s.trace).next (effOf c r) := by
        rw [htr, cnt_snoc_self]
      have hprogs := hI.progs
      cases hch : s.child with
      | none =>
        rw [hch] at hprogs
        obtain ⟨hfull, hpre, hA, hB⟩ := hprogs
        rw [hpar] at hpre
        obtain ⟨he, hk⟩ := preFork_sys hpre r hnf
        rw [he] at cA
        refine ⟨?_, ?_, ?_⟩
        · rw [hch', hch]
          simp only
          rw [cA, cB, hpar']
          exact ⟨hfull, hk, hA, hB⟩
        · rw [cA, cB]; exact core_other hI.core htr he hq
        · rw [cA]
          have hd : s'.childDone = s.childDone := by simp [Sys.childDone, hch']
          rw [hd]
          exact hI.waited
      | some cp =>
        rw [hch] at hprogs
        obtain ⟨hA, hB⟩ := hprogs
        rw [hpar, safe_sys] at hA
        obtain ⟨hok, hk⟩ := hA.2 r
        refine ⟨?_, ?_, ?_⟩
        · rw [hch', hch]
          simp only
          rw [cA, cB, hpar']
          exact ⟨hk, hB⟩
        · rw [cA, cB, htr, connTrace_snoc, connEvent_eq]
          exact core_stepA hI.core hok hq
        · rw [cA]
          intro hw
          have hd : s'.childDone = s.childDone := by simp [Sys.childDone, hch']
          rw [hd]
          by_cases he : effOf c r = .waited
          · exact hwait he rfl (by simp [hch])
          · apply hI.waited
            revert hw he
            cases effOf c r <;> simp [Cnt.next]
    · -- the child steps
      have hchild : s.child = some (.sys c k) := by simpa [Sys.prog] using hp
      have hch' : s'.child = some (k r) := by simpa [Sys.prog] using hpw
      have hpar' : s'.parent = s.parent := by simpa [Sys.prog, Who.peer] using hpp
      have cA : cnt .parent s'.trace = cnt .parent s.trace := by
        rw [htr, cnt_snoc_peer _ _ _ _ _ (by decide)]
      have cB : cnt .child s'.trace = (cnt .child s.trace).next (effOf c r) := by
        rw [htr, cnt_snoc_self]
      have hprogs := hI.progs
      rw [hchild] at hprogs
      obtain ⟨hA, hB⟩ := hprogs
      rw [safe_sys] at hB
      obtain ⟨hok, hk⟩ := hB.2 r
      refine ⟨?_, ?_, ?_⟩
      · rw [hch']
        simp only
        rw [cA, cB, hpar']
        exact ⟨hA, hk⟩
      · rw [cA, cB, htr, connTrace_snoc, connEvent_eq]
        exact core_stepB hI.core hok hq
      · rw [cA]
        intro hw
        have := hI.waited hw
        simp [Sys.childDone, hchild, Prog.terminated] at this

theorem step_inv_of_Step {full : Bool} {s s' : Sys} (hI : Inv full s) (h : Step s s') :
    Inv full s' := by
  obtain ⟨w, r, h⟩ := h
  exact inv_step hI h

theorem core_zero : Core ⟨0, 0, 0, 0, 0⟩ ⟨0, 0, 0, 0, 0⟩ [] [] [] := by
  refine ⟨by simp, by simp, by simp, by simp, by simp, by simp⟩

theorem cnt_nil (w : Who) : cnt w [] = ⟨0, 0, 0, 0, 0⟩ := rfl

theorem inv_mainInit : Inv true mainInit := by
  refine ⟨⟨rfl, preFork_main, rfl, rfl⟩, ?_, ?_⟩
  · simpa [mainInit, cnt_nil, connTrace] using core_zero
  · simp [mainInit, cnt_nil]

theorem inv_pairInit (fdA fdB : Int) : Inv false (pairInit fdA fdB) := by
  refine ⟨⟨safeA_process_a fdA, safeB_process_b fdB⟩, ?_, ?_⟩
  · simpa [pairInit, cnt_nil, connTrace] using core_zero
  · simp [pairInit, cnt_nil]

theorem inv_reachable {full : Bool} {init s : Sys} (h0 : Inv full init)
    (h : Reachable init s) : Inv full s := by
  induction h with
  | refl => exact h0
  | tail _ hs ih => exact step_inv_of_Step ih hs

theorem reachable_run : ∀ (sched : List (Who × Res)) (init s s' : Sys),
    Reachable init s → run sched s = some s' → Reachable init s' := by
  intro sched
  induction sched with
  | nil =>
    intro init s s' hr h
    simp [run] at h
    subst h
    exact hr
  | cons x rest ih =>
    intro init s s' hr h
    obtain ⟨w, r⟩ := x
    simp only [run] at h
    split at h
    · next s1 hs1 => exact ih init s1 s' (Relation.ReflTransGen.tail hr ⟨w, r, hs1⟩) h
    · simp at h

theorem reachable_runD (sched : List (Who × Res)) (init : Sys) :
    Reachable init (runD sched init) := by
  unfold runD
  cases h : run sched init with
  | none => exact Relation.ReflTransGen.refl
  | some s => exact reachable_run sched init init s Relation.ReflTransGen.refl h



/-! ## Single runs: the end of a run -/

theorem noWait_nil : NoWait [] := by
  simp [NoWait]

theorem noWait_snoc {h : List Ev} {c : Call} {r : Res} (hh : NoWait h) (hc : c ≠ .wait) :
    NoWait (h ++ [⟨c, r⟩]) := by
  intro e he
  simp only [List.mem_append, List.mem_singleton] at he
  rcases he with he | he
  · exact hh e he
  · subst he; exact hc

theorem paths_fatal (name : String) (h : List Ev) (hh : NoWait h) :
    Prog.Paths WaitThenReturn h (fatal name) := by
  intro r
  exact noWait_snoc hh (by simp)

theorem paths_wait_for_message (sock : Int) (name : String) (k : Prog) (h : List Ev)
    (hh : NoWait h) (hk : ∀ h', NoWait h' → Prog.Paths WaitThenReturn h' k) :
    Prog.Paths WaitThenReturn h (wait_for_message sock name k) := by
  intro r1 r
  dsimp only
  by_cases hr : r.val ≤ 0
  · rw [if_pos hr]
    exact paths_fatal "recv" _ (noWait_snoc (noWait_snoc hh (by simp)) (by simp))
  · rw [if_neg hr]
    intro r3
    exact hk _ (noWait_snoc (noWait_snoc (noWait_snoc hh (by simp)) (by simp)) (by simp))

theorem paths_send_message (sock : Int) (name : String) (msg : List Nat) (k : Prog)
    (h : List Ev) (hh : NoWait h) (hk : ∀ h', NoWait h' → Prog.Paths WaitThenReturn h' k) :
    Prog.Paths WaitThenReturn h (send_message sock name msg k) := by
  intro r1 r
  dsimp only
  by_cases hr : r.val = -1
  · rw [if_pos hr]
    exact paths_fatal "send" _ (noWait_snoc (noWait_snoc hh (by simp)) (by simp))
  · rw [if_neg hr]
    exact hk _ (noWait_snoc (noWait_snoc hh (by simp)) (by simp))

theorem paths_process_a_loop (fd : Int) (k : Prog)
    (hk : ∀ h', NoWait h' → Prog.Paths WaitThenReturn h' k) :
    ∀ (n i : Nat) (h : List Ev), NoWait h →
      Prog.Paths WaitThenReturn h (process_a_loop fd n i k) := by
  intro n
  induction n with
  | zero => intro i h hh; exact hk h hh
  | succ n ih =>
    intro i h hh r1 r2
    refine paths_send_message _ _ _ _ _ (noWait_snoc (noWait_snoc hh (by simp)) (by simp)) ?_
    intro h1 hh1
    exact paths_wait_for_message _ _ _ _ hh1 (fun h2 hh2 => ih _ h2 hh2)

theorem paths_process_b_loop (fd : Int) (k : Prog)
    (hk : ∀ h', NoWait h' → Prog.Paths WaitThenReturn h' k) :
    ∀ (n i : Nat) (h : List Ev), NoWait h →
      Prog.Paths WaitThenReturn h (process_b_loop fd n i k) := by
  intro n
  induction n with
  | zero => intro i h hh; exact hk h hh
  | succ n ih =>
    intro i h hh
    refine paths_wait_for_message _ _ _ _ hh ?_
    intro h1 hh1 r1 r2
    refine paths_send_message _ _ _ _ _ (noWait_snoc (noWait_snoc hh1 (by simp)) (by simp)) ?_
    intro h2 hh2
    exact ih _ h2 hh2

theorem paths_main_child (h : List Ev) (hh : NoWait h) :
    Prog.Paths WaitThenReturn h main_child := by
  intro sock
  dsimp only
  by_cases hs : sock.val < 0
  · rw [if_pos hs]
    exact paths_fatal "socket" _ (noWait_snoc hh (by simp))
  · have hp : ¬ (inet_pton AF_INET "127.0.0.1").1 ≤ 0 := by decide
    rw [if_neg hs, if_neg hp]
    intro r1 r
    dsimp only
    by_cases hr : r.val < 0
    · rw [if_pos hr]
      exact paths_fatal "connect" _
        (noWait_snoc (noWait_snoc (noWait_snoc hh (by simp)) (by simp)) (by simp))
    · rw [if_neg hr]
      intro r3
      refine paths_process_b_loop _ _ ?_ _ _ _ (noWait_snoc
        (noWait_snoc (noWait_snoc (noWait_snoc hh (by simp)) (by simp)) (by simp)) (by simp))
      intro h3 hh3 r4
      exact noWait_snoc hh3 (by simp)

theorem paths_main_parent (fd : Int) (h : List Ev) (hh : NoWait h) :
    Prog.Paths WaitThenReturn h (main_parent fd) := by
  intro r
  dsimp only
  by_cases hr : r.val < 0
  · rw [if_pos hr]
    exact paths_fatal "accept" _ (noWait_snoc hh (by simp))
  · rw [if_neg hr]
    intro r3
    refine paths_process_a_loop _ _ ?_ _ _ _ (noWait_snoc (noWait_snoc hh (by simp)) (by simp))
    intro h3 hh3 r4 r5 r6
    exact ⟨rfl, h3, r.val, r4, r5, r6, by simp, hh3⟩

theorem paths_main : Prog.Paths WaitThenReturn [] main := by
  intro fd
  dsimp only
  by_cases c0 : fd.val = 0
  · rw [if_pos c0]; exact paths_fatal _ _ (noWait_snoc noWait_nil (by simp))
  rw [if_neg c0]
  intro so
  dsimp only
  by_cases c1 : so.val ≠ 0
  · rw [if_pos c1]
    exact paths_fatal _ _ (noWait_snoc (noWait_snoc noWait_nil (by simp)) (by simp))
  rw [if_neg c1]
  intro b
  dsimp only
  by_cases c2 : b.val < 0
  · rw [if_pos c2]
    exact paths_fatal _ _ (noWait_snoc (noWait_snoc (noWait_snoc noWait_nil (by simp))
      (by simp)) (by simp))
  rw [if_neg c2]
  intro l
  dsimp only
  have h4 : NoWait ([] ++ [⟨.socket AF_INET SOCK_STREAM 0, fd⟩] ++
      [⟨.setsockopt fd.val SOL_SOCKET (SO_REUSEADDR ||| SO_REUSEPORT) 1, so⟩] ++
      [⟨.bind fd.val ⟨AF_INET, htons PORT, INADDR_ANY⟩, b⟩] ++ [⟨.listen fd.val 1, l⟩]) :=
    noWait_snoc (noWait_snoc (noWait_snoc (noWait_snoc noWait_nil (by simp))
      (by simp)) (by simp)) (by simp)
  by_cases c3 : l.val < 0
  · rw [if_pos c3]; exact paths_fatal _ _ h4
  rw [if_neg c3]
  intro r4 pid
  dsimp only
  by_cases c4 : pid.val < 0
  · rw [if_pos c4]; exact paths_fatal _ _ (noWait_snoc (noWait_snoc h4 (by simp)) (by simp))
  rw [if_neg c4]
  by_cases c5 : pid.val = 0
  · rw [if_pos c5]; exact paths_main_child _ (noWait_snoc (noWait_snoc h4 (by simp)) (by simp))
  · rw [if_neg c5]
    exact paths_main_parent _ _ (noWait_snoc (noWait_snoc h4 (by simp)) (by simp))



/-! ## Claims about single runs -/

theorem exec_fatal (name : String) (o : Nat → Res) :
    exec (fatal name) o = ([⟨.perror name, o 0⟩], .exited 1) := rfl

/-- C3: `wait_for_message` on its 16-byte buffer, for the result `o 1` of the
receive call.  A result `<= 0` ends the process with exit status 1 right after
the `recv` diagnostic, whatever the caller would have done next.  A result from
1 to 16 makes it announce READY and go on with the caller's continuation `k`.
The calls made and the outcome do not depend on the bytes received: they are
the same under any oracle `o'` that returns the same values as `o` and differs
from it only in the result of the receive call. -/
theorem C3_wait_for_message (sock : Int) (name : String) (k : Prog) (o : Nat → Res) :
    ((o 1).val ≤ 0 →
      (exec (wait_for_message sock name k) o).2 = .exited 1 ∧
      ((exec (wait_for_message sock name k) o).1.drop 1).map Ev.call =
        [.recv sock 16 0, .perror "recv"]) ∧
    (1 ≤ (o 1).val → (o 1).val ≤ 16 →
      (exec (wait_for_message sock name k) o).2 = (exec k (fun n => o (n + 3))).2 ∧
      ((exec (wait_for_message sock name k) o).1.take 3).map (fun e => e.call.diag) =
        ["printf", "recv", "printf"] ∧
      (exec (wait_for_message sock name k) o).1.drop 3 = (exec k (fun n => o (n + 3))).1) ∧
    (∀ o' : Nat → Res, (∀ n, (o' n).val = (o n).val) → (∀ n, n ≠ 1 → o' n = o n) →
      (exec (wait_for_message sock name k) o').2 = (exec (wait_for_message sock name k) o).2 ∧
      (exec (wait_for_message sock name k) o').1.map Ev.call =
        (exec (wait_for_message sock name k) o).1.map Ev.call) := by
  refine ⟨fun h => ?_, fun h1 _ => ?_, fun o' hv hd => ?_⟩
  · simp [wait_for_message, exec, h]
  · have h' : ¬ (o 1).val ≤ 0 := by omega
    simp [wait_for_message, exec, h', Call.diag]
  · have hk : (fun n => o' (n + 1 + 1 + 1)) = (fun n => o (n + 1 + 1 + 1)) := by
      funext n
      exact hd _ (by omega)
    by_cases h : (o 1).val ≤ 0
    · have h' : (o' 1).val ≤ 0 := by rw [hv]; exact h
      simp [wait_for_message, exec, h, h']
    · have h' : ¬ (o' 1).val ≤ 0 := by rw [hv]; exact h
      simp [wait_for_message, exec, h, h', hk]

/-- C3, at concrete inputs: a receive that returns 0 (the peer has closed), a
receive of 5 bytes, and two receives of 5 bytes with different contents. -/
theorem C3_wait_for_message_witness :
    ((oracle [] (rv 0) 1).val ≤ 0 ∧
      (exec (wait_for_message 4 "Process A" (.ret 0)) (oracle [] (rv 0))).2 = .exited 1 ∧
      ((exec (wait_for_message 4 "Process A" (.ret 0)) (oracle [] (rv 0))).1.drop 1).map Ev.call =
        [.recv 4 16 0, .perror "recv"]) ∧
    (1 ≤ (oracle [] (rv 5) 1).val ∧ (oracle [] (rv 5) 1).val ≤ 16 ∧
      (exec (wait_for_message 4 "Process A" (.ret 0)) (oracle [] (rv 5))).2 = .returned 0) ∧
    ((exec (wait_for_message 4 "Process A" (.ret 0)) (oracle [rv 0, ⟨5, [1, 2, 3, 4, 5]⟩] (rv 0))).2 =
      (exec (wait_for_message 4 "Process A" (.ret 0)) (oracle [rv 0, ⟨5, PONG⟩] (rv 0))).2) :=
  ⟨⟨by decide, (C3_wait_for_message 4 "Process A" (.ret 0) (oracle [] (rv 0))).1 (by decide)⟩,
    ⟨by decide, by decide,
      ((C3_wait_for_message 4 "Process A" (.ret 0) (oracle [] (rv 5))).2.1
        (by decide) (by decide)).1⟩,
    ((C3_wait_for_message 4 "Process A" (.ret 0) (oracle [rv 0, ⟨5, PONG⟩] (rv 0))).2.2
      (oracle [rv 0, ⟨5, [1, 2, 3, 4, 5]⟩] (rv 0))
      (fun n => match n with
        | 0 => rfl
        | 1 => rfl
        | _ + 2 => rfl)
      (fun n hn => match n, hn with
        | 0, _ => rfl
        | 1, h1 => absurd rfl h1
        | _ + 2, _ => rfl)).1⟩

/-- C4: in every run of `main` (as the parent or as the child), a call of
`bind`, `listen`, `accept`, `connect`, `send` or `recv` that reports failure is
followed by exactly one more call, the `perror` that names the operation, and
the process ends with exit status 1: no retry and no further socket
operation. -/
theorem C4_failure_is_fatal (o : Nat → Res) (i : Nat) (e : Ev)
    (h : (exec main o).1[i]? = some e) (hf : reportsFailure e.call e.res = true) :
    (exec main o).2 = .exited 1 ∧
    ((exec main o).1.drop (i + 1)).map Ev.call = [.perror e.call.diag] ∧
    e.call.diag ∈ ["bind", "listen", "accept", "connect", "send", "recv"] := by
  obtain ⟨k, hk, hex⟩ := exec_all main nodeOk_main o i e h
  obtain ⟨c, r⟩ := e
  have key : ∀ name, k r = fatal name →
      (exec main o).2 = .exited 1 ∧ ((exec main o).1.drop (i + 1)).map Ev.call = [.perror name] := by
    intro name hn
    simp only [hn, exec_fatal] at hex
    have h1 := congrArg Prod.fst hex
    have h2 := congrArg Prod.snd hex
    simp only at h1 h2
    exact ⟨h2.symm, by rw [← h1]; rfl⟩
  cases c <;> simp only [reportsFailure, decide_eq_true_eq] at hf <;>
    simp only [NodeOk] at hk <;> simp only [Call.diag]
  case bind fd a => exact ⟨(key _ (hk.2 r hf)).1, (key _ (hk.2 r hf)).2, by simp⟩
  case listen fd b => exact ⟨(key _ (hk.2 r hf)).1, (key _ (hk.2 r hf)).2, by simp⟩
  case accept fd => exact ⟨(key _ (hk r hf)).1, (key _ (hk r hf)).2, by simp⟩
  case connect fd a => exact ⟨(key _ (hk.2 r hf)).1, (key _ (hk.2 r hf)).2, by simp⟩
  case send fd buf len fl =>
    exact ⟨(key _ (hk.2.2.2 r hf)).1, (key _ (hk.2.2.2 r hf)).2, by simp⟩
  case recv fd len fl =>
    exact ⟨(key _ (hk.2.2 r hf)).1, (key _ (hk.2.2 r hf)).2, by simp⟩
  all_goals exact absurd hf (by simp)

/-- C4, at a concrete input: the parent's `accept` fails. -/
theorem C4_failure_is_fatal_witness :
    (exec main acceptFailsOracle).1[6]? = some ⟨.accept 3, rv (-1)⟩ ∧
    reportsFailure (.accept 3) (rv (-1)) = true ∧
    (exec main acceptFailsOracle).2 = .exited 1 ∧
    ((exec main acceptFailsOracle).1.drop 7).map Ev.call = [.perror "accept"] :=
  ⟨by decide, by decide,
    (C4_failure_is_fatal acceptFailsOracle 6 ⟨.accept 3, rv (-1)⟩ (by decide) (by decide)).1,
    (C4_failure_is_fatal acceptFailsOracle 6 ⟨.accept 3, rv (-1)⟩ (by decide) (by decide)).2.1⟩



/-- C6, as stated, fails: the fork succeeds (pid 77), the parent's `accept`
fails, and the parent exits with status 1 without having called `wait`. -/
theorem C6_counterexample :
    (exec main acceptFailsOracle).1[5]? = some ⟨.fork, rv 77⟩ ∧
    (exec main acceptFailsOracle).2 = .exited 1 ∧
    (exec main acceptFailsOracle).1.map (fun e => e.call.diag) =
      ["socket", "setsockopt", "bind", "listen", "printf", "fork", "accept", "perror"] ∧
    ¬ ∃ e ∈ (exec main acceptFailsOracle).1, e.call = .wait := by
  decide

/-- C6, amended: every run of `main` that ends with the return from `main`
returns 0 and ends with the close of the connection, then `wait`, then the
final banner, with no `wait` before; every run that ends in `exit` (after a
failed setup call, `accept`, `send` or `recv`, or in the child) has called no
`wait` at all. -/
theorem C6_wait_before_return (o : Nat → Res) :
    (∀ v, (exec main o).2 = .returned v →
      v = 0 ∧ ∃ pre fd r1 r2 r3,
        (exec main o).1 = pre ++ [⟨.close fd, r1⟩, ⟨.wait, r2⟩,
          ⟨.printf "\n=== TCP-пингпонг завершен ===\n", r3⟩] ∧ NoWait pre) ∧
    (∀ st, (exec main o).2 = .exited st → NoWait (exec main o).1) := by
  have h := exec_paths main [] paths_main o
  simp only [List.nil_append] at h
  constructor
  · intro v hv
    rw [hv] at h
    exact h
  · intro st hst
    rw [hst] at h
    exact h

/-- C6, amended, at a concrete input: the run of the parent in which every call
succeeds returns 0 after `close`, `wait` and the banner. -/
theorem C6_wait_before_return_witness :
    (exec main parentOracle).2 = .returned 0 ∧
    ∃ pre fd r1 r2 r3,
      (exec main parentOracle).1 = pre ++ [⟨.close fd, r1⟩, ⟨.wait, r2⟩,
        ⟨.printf "\n=== TCP-пингпонг завершен ===\n", r3⟩] ∧ NoWait pre :=
  ⟨by decide, ((C6_wait_before_return parentOracle).1 0 (by decide)).2⟩

theorem sendIs_wait_for_message (fd : Int) (msg : List Nat) (sock : Int) (name : String)
    (k : Prog) (hk : Prog.All (SendIs fd msg) k) :
    Prog.All (SendIs fd msg) (wait_for_message sock name k) := by
  refine ⟨trivial, fun _ => ⟨trivial, fun r => ?_⟩⟩
  by_cases hr : r.val ≤ 0
  · simp [hr, Prog.All, SendIs]
  · simp [hr, Prog.All, SendIs, hk]

theorem sendIs_send_message (fd : Int) (msg : List Nat) (name : String) (k : Prog)
    (hk : Prog.All (SendIs fd msg) k) :
    Prog.All (SendIs fd msg) (send_message fd name msg k) := by
  refine ⟨trivial, fun _ => ⟨⟨rfl, rfl, rfl⟩, fun r => ?_⟩⟩
  by_cases hr : r.val = -1
  · simp [hr, Prog.All, SendIs]
  · simp [hr, hk]

theorem sendIs_process_a (fd : Int) :
    Prog.All (SendIs fd (cstr "PING")) (process_a fd (.ret 0)) := by
  have loop : ∀ n i, Prog.All (SendIs fd (cstr "PING"))
      (process_a_loop fd n i (.sys (.close fd) fun _ => .ret 0)) := by
    intro n
    induction n with
    | zero => intro i; simp [process_a_loop, Prog.All, SendIs]
    | succ n ih =>
      intro i
      refine ⟨trivial, fun _ => ⟨trivial, fun _ => ?_⟩⟩
      exact sendIs_send_message _ _ _ _ (sendIs_wait_for_message _ _ _ _ _ (ih _))
  exact ⟨trivial, fun _ => loop _ _⟩

theorem sendIs_process_b (fd : Int) :
    Prog.All (SendIs fd (cstr "PONG")) (process_b fd (.ret 0)) := by
  have loop : ∀ n i, Prog.All (SendIs fd (cstr "PONG"))
      (process_b_loop fd n i (.sys (.close fd) fun _ => .ret 0)) := by
    intro n
    induction n with
    | zero => intro i; simp [process_b_loop, Prog.All, SendIs]
    | succ n ih =>
      intro i
      refine sendIs_wait_for_message _ _ _ _ _ ⟨trivial, fun _ => ⟨trivial, fun _ => ?_⟩⟩
      exact sendIs_send_message _ _ _ _ (ih _)
  exact ⟨trivial, fun _ => loop _ _⟩

/-- C7: every `send` in every run of `main` is made with the length
`strlen(msg) + 1 = 5` and hands exactly the five bytes `P I N G 0` or
`P O N G 0` to the connection (four letters and the terminator, nothing before
them); the message fits in the buffer of every `recv` of the program, which
is 16 bytes long.  Every `send` of `process_a` (the Initiator) carries
`P I N G 0`, every `send` of `process_b` (the Responder) carries
`P O N G 0`. -/
theorem C7_message_bytes (o : Nat → Res) (i : Nat) (fd : Int) (buf : List Nat) (len : Nat)
    (flags : Int) (r : Res) (h : (exec main o).1[i]? = some ⟨.send fd buf len flags, r⟩) :
    len = strlen buf + 1 ∧ len = 5 ∧
    (buf.take len = [80, 73, 78, 71, 0] ∨ buf.take len = [80, 79, 78, 71, 0]) ∧
    (∀ (o' : Nat → Res) (j : Nat) (fd' : Int) (len' : Nat) (flags' : Int) (r' : Res),
      (exec main o').1[j]? = some ⟨.recv fd' len' flags', r'⟩ →
        len' = 16 ∧ (buf.take len).length ≤ len') ∧
    (∀ (fdA : Int) (oA : Nat → Res) (j : Nat) (fd' : Int) (buf' : List Nat) (len' : Nat)
      (flags' : Int) (r' : Res),
      (exec (process_a fdA (.ret 0)) oA).1[j]? = some ⟨.send fd' buf' len' flags', r'⟩ →
        fd' = fdA ∧ buf'.take len' = [80, 73, 78, 71, 0]) ∧
    (∀ (fdB : Int) (oB : Nat → Res) (j : Nat) (fd' : Int) (buf' : List Nat) (len' : Nat)
      (flags' : Int) (r' : Res),
      (exec (process_b fdB (.ret 0)) oB).1[j]? = some ⟨.send fd' buf' len' flags', r'⟩ →
        fd' = fdB ∧ buf'.take len' = [80, 79, 78, 71, 0]) := by
  obtain ⟨k, hk, _⟩ := exec_all main nodeOk_main o i _ h
  obtain ⟨h1, _, h3, _⟩ := hk
  have hlen : len = 5 := by
    rcases h3 with h3 | h3 <;> subst h3 <;> rw [h1] <;> decide
  have hbytes : buf.take len = [80, 73, 78, 71, 0] ∨ buf.take len = [80, 79, 78, 71, 0] := by
    rw [hlen]
    rcases h3 with h3 | h3 <;> subst h3
    · left; decide
    · right; decide
  refine ⟨h1, hlen, hbytes, ?_, ?_, ?_⟩
  · intro o' j fd' len' flags' r' h'
    obtain ⟨k', hk', _⟩ := exec_all main nodeOk_main o' j _ h'
    have h16 : len' = 16 := hk'.1
    refine ⟨h16, ?_⟩
    rcases hbytes with hb | hb <;> rw [hb, h16] <;> decide
  · intro fdA oA j fd' buf' len' flags' r' h'
    obtain ⟨k', ⟨e1, e2, e3⟩, _⟩ := exec_all _ (sendIs_process_a fdA) oA j _ h'
    subst e2 e3
    exact ⟨e1, by decide⟩
  · intro fdB oB j fd' buf' len' flags' r' h'
    obtain ⟨k', ⟨e1, e2, e3⟩, _⟩ := exec_all _ (sendIs_process_b fdB) oB j _ h'
    subst e2 e3
    exact ⟨e1, by decide⟩

/-- C7, at a concrete input: the first `send` of the parent. -/
theorem C7_message_bytes_witness :
    (exec main parentOracle).1[11]? = some ⟨.send 4 (cstr "PING") 5 0, rv 5⟩ ∧
    (5 = strlen (cstr "PING") + 1 ∧ 5 = 5 ∧
      ((cstr "PING").take 5 = [80, 73, 78, 71, 0] ∨ (cstr "PING").take 5 = [80, 79, 78, 71, 0])) :=
  ⟨by decide,
    (C7_message_bytes parentOracle 11 4 (cstr "PING") 5 0 (rv 5) (by decide)).1,
    (C7_message_bytes parentOracle 11 4 (cstr "PING") 5 0 (rv 5) (by decide)).2.1,
    (C7_message_bytes parentOracle 11 4 (cstr "PING") 5 0 (rv 5) (by decide)).2.2.1⟩

/-- C8, as stated, fails: in the run of the child in which every call succeeds,
`bind` is given the wildcard address 0.0.0.0 and `connect` the address
127.0.0.1, so the listening socket is not bound to the loopback address and the
two addresses differ. -/
theorem C8_counterexample :
    (exec main childOracle).1[2]?.map Ev.call = some (.bind 3 ⟨AF_INET, htons 12345, [0, 0, 0, 0]⟩) ∧
    (exec main childOracle).1[8]?.map Ev.call =
      some (.connect 5 ⟨AF_INET, htons 12345, [127, 0, 0, 1]⟩) ∧
    ([0, 0, 0, 0] : List Nat) ≠ [127, 0, 0, 1] := by
  decide

/-- C8, amended: in every run of `main`, every socket is a TCP socket
(`AF_INET`, `SOCK_STREAM`), `bind` is called with the wildcard address
`INADDR_ANY` (0.0.0.0) and port 12345, `listen` with backlog 1, and `connect`
with the loopback address 127.0.0.1 and port 12345: the port given to `bind`
equals the port given to `connect`, the addresses differ. -/
theorem C8_endpoint (o : Nat → Res) (i : Nat) (e : Ev) (h : (exec main o).1[i]? = some e) :
    EndpointOk e.call ∧ PORT = 12345 ∧ INADDR_ANY ≠ [127, 0, 0, 1] := by
  obtain ⟨k, hk, hex⟩ := exec_all main nodeOk_main o i e h
  clear hex
  refine ⟨?_, rfl, by decide⟩
  obtain ⟨c, r⟩ := e
  cases c
  case socket d t p => exact ⟨hk.1, hk.2.1⟩
  case bind fd a =>
    obtain ⟨ha, -⟩ := hk
    subst ha
    exact ⟨rfl, rfl, by decide⟩
  case listen fd b => exact hk.1
  case connect fd a =>
    obtain ⟨ha, -⟩ := hk
    subst ha
    exact ⟨rfl, rfl, by decide⟩
  all_goals trivial

/-- C8, amended, at concrete inputs: the `bind` and the `connect` call of the
run of the child in which every call succeeds. -/
theorem C8_endpoint_witness :
    ((exec main childOracle).1[2]? = some ⟨.bind 3 ⟨AF_INET, [48, 57], [0, 0, 0, 0]⟩, rv 0⟩ ∧
      EndpointOk (.bind 3 ⟨AF_INET, [48, 57], [0, 0, 0, 0]⟩)) ∧
    ((exec main childOracle).1[8]? = some ⟨.connect 5 ⟨AF_INET, [48, 57], [127, 0, 0, 1]⟩, rv 0⟩ ∧
      EndpointOk (.connect 5 ⟨AF_INET, [48, 57], [127, 0, 0, 1]⟩)) :=
  ⟨⟨by decide, (C8_endpoint childOracle 2 ⟨.bind 3 ⟨AF_INET, [48, 57], [0, 0, 0, 0]⟩, rv 0⟩
      (by decide)).1⟩,
    ⟨by decide, (C8_endpoint childOracle 8 ⟨.connect 5 ⟨AF_INET, [48, 57], [127, 0, 0, 1]⟩, rv 0⟩
      (by decide)).1⟩⟩

/-- C9, on the code: the option name passed to `setsockopt` is
`SO_REUSEADDR | SO_REUSEPORT = 2 | 15 = 15`, the number of SO_REUSEPORT alone.
In no run of `main` is SO_REUSEADDR switched on for any descriptor; in the
successful run the options set on the listening socket are SO_REUSEPORT
only. -/
theorem C9_reuseaddr_not_set :
    SO_REUSEADDR ||| SO_REUSEPORT = SO_REUSEPORT ∧
    (∀ (o : Nat → Res) (fd : Int), SO_REUSEADDR ∉ optionsSet (exec main o).1 fd) ∧
    optionsSet (exec main parentOracle).1 3 = [SO_REUSEPORT] := by
  refine ⟨by decide, ?_, by decide⟩
  intro o fd hmem
  simp only [optionsSet, List.mem_filterMap] at hmem
  obtain ⟨e, he, hopt⟩ := hmem
  obtain ⟨i, hi⟩ := List.getElem?_of_mem he
  obtain ⟨k, hk, hex⟩ := exec_all main nodeOk_main o i e hi
  clear hex
  obtain ⟨c, r⟩ := e
  cases c
  case setsockopt fd' level optname optval =>
    have h15 : optname = 15 := hk.2.1
    subst h15
    simp only [Option.ite_none_right_eq_some, Option.some.injEq] at hopt
    exact absurd hopt.2 (by decide)
  all_goals simp at hopt

/-- C10, on the code: when the first `socket` call returns -1, `main` goes on to
call `setsockopt` on the descriptor -1, and the diagnostic written before the
exit with status 1 is `setsockopt`, not `socket`. -/
theorem C10_socket_failure_undetected :
    (exec main socketFailsOracle).1.map Ev.call =
      [.socket AF_INET SOCK_STREAM 0, .setsockopt (-1) SOL_SOCKET 15 1, .perror "setsockopt"] ∧
    (exec main socketFailsOracle).2 = .exited 1 := by
  decide



/-! ## Claims about the two processes together -/

set_option maxRecDepth 100000 in
theorem prefix_facts : ∀ n, n ≤ 40 →
    ((List.range n).map expectedAt <+: expected) ∧
    (((List.range n).map expectedAt).head? = none ∨
      ((List.range n).map expectedAt).head? = some (.sent .parent PING)) ∧
    (receivedBy .child ((List.range n).map expectedAt) <+:
      sentBy .parent ((List.range n).map expectedAt)) ∧
    (receivedBy .parent ((List.range n).map expectedAt) <+:
      sentBy .child ((List.range n).map expectedAt)) := by
  decide

theorem getElem?_of_prefix {α : Type} {l1 l2 : List α} (h : l1 <+: l2) (k : Nat) (m : α)
    (hk : l1[k]? = some m) : l2[k]? = some m := by
  obtain ⟨t, rfl⟩ := h
  have hlt : k < l1.length := by
    by_contra hge
    rw [List.getElem?_eq_none (by omega)] at hk
    simp at hk
  rw [List.getElem?_append_left hlt]
  exact hk

/-- C1: in every reachable state of `process_a` composed with `process_b` over
an established connection, the sequence of messages sent and received so far is
a prefix of (A sends PING, B receives it, B sends PONG, A receives it) repeated
10 times; the first event, if any, is a send by the Initiator; at most one
message is in flight; the k-th message received by the Responder is the k-th
message sent by the Initiator, and the k-th message received by the Initiator
is the k-th message sent by the Responder. -/
theorem C1_strict_alternation (fdA fdB : Int) (s : Sys) (h : Reachable (pairInit fdA fdB) s) :
    connTrace s.trace <+: expected ∧
    (∀ e, (connTrace s.trace).head? = some e → e = .sent .parent PING) ∧
    s.toChild.length + s.toParent.length ≤ 1 ∧
    (∀ (k : Nat) (m : List Nat), (receivedBy .child (connTrace s.trace))[k]? = some m →
      (sentBy .parent (connTrace s.trace))[k]? = some m) ∧
    (∀ (k : Nat) (m : List Nat), (receivedBy .parent (connTrace s.trace))[k]? = some m →
      (sentBy .child (connTrace s.trace))[k]? = some m) := by
  have hI := inv_reachable (inv_pairInit fdA fdB) h
  obtain ⟨⟨c1, c2, c3, c4, c5⟩, htc, htp, hct, _, _⟩ := hI.core
  have hn : (cnt .parent s.trace).sends + (cnt .child s.trace).recvs +
      (cnt .child s.trace).sends + (cnt .parent s.trace).recvs ≤ 40 := by omega
  obtain ⟨p1, p2, p3, p4⟩ := prefix_facts _ hn
  rw [← hct] at p1 p2 p3 p4
  refine ⟨p1, ?_, ?_, fun k m => getElem?_of_prefix p3 k m, fun k m => getElem?_of_prefix p4 k m⟩
  · intro e he
    rcases p2 with p2 | p2
    · rw [p2] at he; simp at he
    · rw [p2] at he; simpa using he.symm
  · rw [htc, htp]
    simp only [List.length_replicate]
    omega

set_option maxRecDepth 100000 in
/-- C1, at a concrete input: the state after a complete exchange, in which all
40 events have happened. -/
theorem C1_strict_alternation_witness :
    Reachable (pairInit 4 3) (runD pairSchedule (pairInit 4 3)) ∧
    connTrace (runD pairSchedule (pairInit 4 3)).trace = expected ∧
    connTrace (runD pairSchedule (pairInit 4 3)).trace <+: expected :=
  ⟨reachable_runD _ _, by decide,
    (C1_strict_alternation 4 3 _ (reachable_runD pairSchedule (pairInit 4 3))).1⟩



theorem no_close_of_closes_zero {w : Who} {tr : List Act} (h : (cnt w tr).closes = 0)
    (a : Act) (ha : a ∈ tr) (hc : a.eff = .closed) : a.who ≠ w := by
  simp only [cnt, List.countP_eq_zero] at h
  intro hw
  exact h a ha (by simp [hw, hc])

theorem fails_zero {w : Who} {tr : List Act} (h : ∀ a ∈ tr, a.eff ≠ .failed) :
    (cnt w tr).fails = 0 := by
  simp only [cnt, List.countP_eq_zero]
  intro a ha
  simp [h a ha]

/-- At a send no end of the connection has been closed; at a receive the
receiver has not closed its end, and a receive by the Responder comes before
any close. -/
theorem step_event {full : Bool} {s s' : Sys} {w : Who} {r : Res} (hI : Inv full s)
    (h : step w r s = some s') :
    ∃ c, s'.trace = s.trace ++ [⟨w, c, r⟩] ∧
      ((effOf c r).isSent = true →
        (cnt .parent s.trace).closes = 0 ∧ (cnt .child s.trace).closes = 0) ∧
      ((effOf c r).isReceived = true →
        (cnt w s.trace).closes = 0 ∧ (w = .child → (cnt .parent s.trace).closes = 0)) := by
  obtain ⟨c, k, hp, htr, hq, -, hcase⟩ := step_spec h
  refine ⟨c, htr, ?_⟩
  obtain ⟨⟨c1, c2, c3, c4, c5⟩, htc, htp, -, hcA, hcB⟩ := hI.core
  have hprogs := hI.progs
  rcases hcase with ⟨hc, -, -, -, -, -⟩ | ⟨hnf, -, -⟩
  · subst hc
    simp [effOf, Eff.isSent, Eff.isReceived]
  · cases w
    · have hpar : s.parent = .sys c k := by simpa [Sys.prog] using hp
      cases hch : s.child with
      | none =>
        rw [hch] at hprogs
        obtain ⟨-, hpre, -, -⟩ := hprogs
        rw [hpar] at hpre
        rw [(preFork_sys hpre r hnf).1]
        simp [Eff.isSent, Eff.isReceived]
      | some cp =>
        rw [hch] at hprogs
        obtain ⟨hA, -⟩ := hprogs
        rw [hpar, safe_sys] at hA
        obtain ⟨hok, -⟩ := hA.2 r
        revert hok
        cases effOf c r <;> simp only [specA, Eff.isSent, Eff.isReceived] <;> intro hok
        case sent m =>
          refine ⟨fun _ => ⟨hok.2.2.1, ?_⟩, by simp⟩
          by_contra hne
          have := hcB (by omega)
          omega
        case received m => exact ⟨by simp, fun _ => ⟨hok.2, by simp⟩⟩
        all_goals simp
    · have hchild : s.child = some (.sys c k) := by simpa [Sys.prog] using hp
      rw [hchild] at hprogs
      obtain ⟨-, hB⟩ := hprogs
      rw [safe_sys] at hB
      obtain ⟨hok, -⟩ := hB.2 r
      revert hok hq
      simp only [QEffect, Sys.inbox, Who.peer]
      cases effOf c r <;> simp only [specB, QEff, Eff.isSent, Eff.isReceived] <;> intro hq hok
      case sent m =>
        refine ⟨fun _ => ⟨?_, hok.2.2.1⟩, by simp⟩
        by_contra hne
        have := hcA (by omega)
        omega
      case received m =>
        refine ⟨by simp, fun _ => ⟨hok.2, fun _ => ?_⟩⟩
        by_contra hne
        have h10 := hcA (by omega)
        rw [htc] at hq
        have := (replicate_eq_cons hq.1).2.2
        omega
      all_goals simp

theorem ordered_nil : Ordered [] := by
  intro i j a b _ hi
  simp at hi

theorem ordered_snoc {tr : List Act} {b : Act} (h : Ordered tr)
    (h1 : b.eff.isSent = true → (cnt .parent tr).closes = 0 ∧ (cnt .child tr).closes = 0)
    (h2 : b.eff.isReceived = true →
      (cnt b.who tr).closes = 0 ∧ (b.who = .child → (cnt .parent tr).closes = 0)) :
    Ordered (tr ++ [b]) := by
  intro i j a b' hij hi hj hc
  have hjlen : j < (tr ++ [b]).length := by
    by_contra hge
    rw [List.getElem?_eq_none (by omega)] at hj
    simp at hj
  simp only [List.length_append, List.length_singleton] at hjlen
  have hi' : tr[i]? = some a := by
    rw [List.getElem?_append_left (by omega)] at hi
    exact hi
  by_cases hj' : j < tr.length
  · rw [List.getElem?_append_left hj'] at hj
    exact h i j a b' hij hi' hj hc
  · have hj2 : j = tr.length := by omega
    subst hj2
    simp at hj
    subst hj
    have ha : a ∈ tr := List.getElem?_mem hi'
    constructor
    · by_contra hs
      have hs' : b.eff.isSent = true := by simpa using hs
      obtain ⟨p, q⟩ := h1 hs'
      have n1 := no_close_of_closes_zero p a ha hc
      have n2 := no_close_of_closes_zero q a ha hc
      cases hw : a.who <;> simp_all
    · intro hr
      obtain ⟨p, q⟩ := h2 hr
      have n1 := no_close_of_closes_zero p a ha hc
      cases hb : b.who
      · cases hw : a.who
        · rw [hb] at n1; exact absurd hw n1
        · exact ⟨rfl, rfl⟩
      · have n2 := no_close_of_closes_zero (q hb) a ha hc
        rw [hb] at n1
        cases hw : a.who <;> simp_all

theorem inv_ordered_reachable {full : Bool} {init s : Sys} (h0 : Inv full init)
    (hinit : init.trace = []) (h : Reachable init s) : Ordered s.trace := by
  induction h with
  | refl => rw [hinit]; exact ordered_nil
  | tail hr hs ih =>
    obtain ⟨w, r, hstep⟩ := hs
    obtain ⟨c, htr, e1, e2⟩ := step_event (inv_reachable h0 hr) hstep
    rw [htr]
    exact ordered_snoc ih e1 e2



/-! ## The descriptors that are closed -/

theorem closeIs_wait_for_message (fd sock : Int) (name : String) (k : Prog)
    (hk : Prog.All (CloseIs fd) k) : Prog.All (CloseIs fd) (wait_for_message sock name k) := by
  refine ⟨trivial, fun _ => ⟨trivial, fun r => ?_⟩⟩
  by_cases hr : r.val ≤ 0
  · simp [hr, Prog.All, CloseIs]
  · simp [hr, Prog.All, CloseIs, hk]

theorem closeIs_send_message (fd sock : Int) (name : String) (msg : List Nat) (k : Prog)
    (hk : Prog.All (CloseIs fd) k) : Prog.All (CloseIs fd) (send_message sock name msg k) := by
  refine ⟨trivial, fun _ => ⟨trivial, fun r => ?_⟩⟩
  by_cases hr : r.val = -1
  · simp [hr, Prog.All, CloseIs]
  · simp [hr, hk]

theorem closeIs_process_a (fd : Int) : Prog.All (CloseIs fd) (process_a fd (.ret 0)) := by
  have loop : ∀ n i, Prog.All (CloseIs fd)
      (process_a_loop fd n i (.sys (.close fd) fun _ => .ret 0)) := by
    intro n
    induction n with
    | zero => intro i; simp [process_a_loop, Prog.All, CloseIs]
    | succ n ih =>
      intro i
      refine ⟨trivial, fun _ => ⟨trivial, fun _ => ?_⟩⟩
      exact closeIs_send_message _ _ _ _ _ (closeIs_wait_for_message _ _ _ _ (ih _))
  exact ⟨trivial, fun _ => loop _ _⟩

theorem closeIs_process_b (fd : Int) : Prog.All (CloseIs fd) (process_b fd (.ret 0)) := by
  have loop : ∀ n i, Prog.All (CloseIs fd)
      (process_b_loop fd n i (.sys (.close fd) fun _ => .ret 0)) := by
    intro n
    induction n with
    | zero => intro i; simp [process_b_loop, Prog.All, CloseIs]
    | succ n ih =>
      intro i
      refine closeIs_wait_for_message _ _ _ _ ⟨trivial, fun _ => ⟨trivial, fun _ => ?_⟩⟩
      exact closeIs_send_message _ _ _ _ _ (ih _)
  exact ⟨trivial, fun _ => loop _ _⟩

/-- What a call does to the descriptors: a connected end stays the same, a
closed end stays closed, and a `close` on the connected descriptor of the
caller closes its end. -/
theorem world_flags {s s1 : Sys} {w : Who} {c : Call} {r : Res}
    (h : world s w c r = some s1) :
    (∀ f, s.connP = some f → s1.connP = some f) ∧
    (∀ f, s.connC = some f → s1.connC = some f) ∧
    (s.closedP = true → s1.closedP = true) ∧
    (s.closedC = true → s1.closedC = true) ∧
    (∀ fd, c = .close fd → s.conn w = some fd → s1.closed w = true) := by
  cases c <;> simp only [world] at h
  case accept fd =>
    split_ifs at h with h1 h2 <;> simp at h <;> subst h
    · simp
    · refine ⟨fun f hf => ?_, by simp, by simp, by simp, by simp⟩
      rw [h2.2.2] at hf
      simp at hf
  case connect fd a =>
    split_ifs at h with h1 h2 <;> simp at h <;> subst h
    · simp
    · refine ⟨by simp, fun f hf => ?_, by simp, by simp, by simp⟩
      rw [h2.2.2] at hf
      simp at hf
  case send fd buf len fl =>
    split_ifs at h with h1 h2 <;> simp at h <;> subst h
    · simp
    · cases w <;> simp [Sys.setInbox, Who.peer]
  case recv fd len fl =>
    split_ifs at h with h1 h2 h3
    · split at h
      · split_ifs at h with h4
        simp at h; subst h
        cases w <;> simp [Sys.setInbox]
      · simp at h
    · simp at h; subst h; simp
    · simp at h; subst h; simp
  case close fd =>
    simp at h; subst h
    split_ifs with hc
    · cases w <;> simp [Sys.setClosed, Sys.closed]
    · refine ⟨by simp, by simp, by simp, by simp, fun fd' hfd hconn => ?_⟩
      simp only [Call.close.injEq] at hfd
      subst hfd
      exact absurd hconn hc
  case wait =>
    split_ifs at h <;> simp at h <;> subst h <;> simp
  all_goals
    simp at h; subst h; simp

theorem step_flags {w : Who} {r : Res} {s s' : Sys} {c : Call} {k : Res → Prog}
    (hp : s.prog w = some (.sys c k)) (hc : s.child.isSome = true)
    (h : step w r s = some s') :
    (∀ f, s.connP = some f → s'.connP = some f) ∧
    (∀ f, s.connC = some f → s'.connC = some f) ∧
    (s.closedP = true → s'.closedP = true) ∧
    (s.closedC = true → s'.closedC = true) ∧
    (∀ fd, c = .close fd → s.conn w = some fd → s'.closed w = true) := by
  unfold step at h
  rw [hp] at h
  simp only at h
  split at h
  · split_ifs at h with h1 h2
    · simp at h; subst h
      cases w <;> simp [Sys.setProg]
    · obtain ⟨-, hn, -⟩ := h2
      rw [Option.isNone_iff_eq_none] at hn
      rw [hn] at hc
      simp at hc
  · split at h
    · next s1 hw =>
      simp at h; subst h
      obtain ⟨f1, f2, f3, f4, f5⟩ := world_flags hw
      refine ⟨?_, ?_, ?_, ?_, ?_⟩
      · cases w <;> simpa [Sys.setProg] using f1
      · cases w <;> simpa [Sys.setProg] using f2
      · cases w <;> simpa [Sys.setProg] using f3
      · cases w <;> simpa [Sys.setProg] using f4
      · cases w <;> simpa [Sys.setProg, Sys.closed] using f5
    · simp at h

theorem eff_closed_iff (c : Call) (r : Res) : effOf c r = .closed ↔ ∃ fd, c = .close fd := by
  cases c <;> simp [effOf]
  all_goals split_ifs <;> simp

theorem pairInv_init (fdA fdB : Int) : PairInv fdA fdB (pairInit fdA fdB) :=
  ⟨closeIs_process_a fdA, ⟨_, rfl, closeIs_process_b fdB⟩, rfl, rfl,
    fun a ha => by simp [pairInit] at ha, fun a ha => by simp [pairInit] at ha⟩

theorem pairInv_step {fdA fdB : Int} {s s' : Sys} {w : Who} {r : Res}
    (hI : PairInv fdA fdB s) (h : step w r s = some s') : PairInv fdA fdB s' := by
  obtain ⟨c, k, hp, htr, -, -, hcase⟩ := step_spec h
  obtain ⟨cp, hcp, hcpAll⟩ := hI.child
  obtain ⟨f1, f2, f3, f4, f5⟩ := step_flags hp (by simp [hcp]) h
  rcases hcase with ⟨-, -, -, hnone, -, -⟩ | ⟨-, hpw, hpp⟩
  · rw [hnone] at hcp
    simp at hcp
  · have hconnP := f1 _ hI.connP
    have hconnC := f2 _ hI.connC
    cases w
    · -- the parent steps
      have hpar : s.parent = .sys c k := by simpa [Sys.prog] using hp
      have hpar' : s'.parent = k r := by simpa [Sys.prog] using hpw
      have hch' : s'.child = s.child := by simpa [Sys.prog, Who.peer] using hpp
      have hall := hI.parent
      rw [hpar] at hall
      refine ⟨by rw [hpar']; exact hall.2 r, ⟨cp, by rw [hch', hcp], hcpAll⟩, hconnP, hconnC,
        ?_, ?_⟩
      · intro a ha hw he
        rw [htr] at ha
        simp only [List.mem_append, List.mem_singleton] at ha
        rcases ha with ha | ha
        · obtain ⟨e1, e2⟩ := hI.closesP a ha hw he
          exact ⟨e1, f3 e2⟩
        · subst ha
          obtain ⟨fd, hfd⟩ := (eff_closed_iff c r).1 he
          subst hfd
          have hfd : fd = fdA := hall.1
          subst hfd
          exact ⟨rfl, by simpa [Sys.closed] using f5 fd rfl (by simpa [Sys.conn] using hI.connP)⟩
      · intro a ha hw he
        rw [htr] at ha
        simp only [List.mem_append, List.mem_singleton] at ha
        rcases ha with ha | ha
        · obtain ⟨e1, e2⟩ := hI.closesC a ha hw he
          exact ⟨e1, f4 e2⟩
        · subst ha
          simp at hw
    · -- the child steps
      have hchild : s.child = some (.sys c k) := by simpa [Sys.prog] using hp
      have hch' : s'.child = some (k r) := by simpa [Sys.prog] using hpw
      have hpar' : s'.parent = s.parent := by simpa [Sys.prog, Who.peer] using hpp
      have hcpeq : cp = .sys c k := by
        rw [hcp] at hchild
        simpa using hchild
      rw [hcpeq] at hcpAll
      refine ⟨by rw [hpar']; exact hI.parent, ⟨k r, hch', hcpAll.2 r⟩, hconnP, hconnC, ?_, ?_⟩
      · intro a ha hw he
        rw [htr] at ha
        simp only [List.mem_append, List.mem_singleton] at ha
        rcases ha with ha | ha
        · obtain ⟨e1, e2⟩ := hI.closesP a ha hw he
          exact ⟨e1, f3 e2⟩
        · subst ha
          simp at hw
      · intro a ha hw he
        rw [htr] at ha
        simp only [List.mem_append, List.mem_singleton] at ha
        rcases ha with ha | ha
        · obtain ⟨e1, e2⟩ := hI.closesC a ha hw he
          exact ⟨e1, f4 e2⟩
        · subst ha
          obtain ⟨fd, hfd⟩ := (eff_closed_iff c r).1 he
          subst hfd
          have hfd : fd = fdB := hcpAll.1
          subst hfd
          exact ⟨rfl, by simpa [Sys.closed] using f5 fd rfl (by simpa [Sys.conn] using hI.connC)⟩

theorem pairInv_reachable {fdA fdB : Int} {s : Sys} (h : Reachable (pairInit fdA fdB) s) :
    PairInv fdA fdB s := by
  induction h with
  | refl => exact pairInv_init fdA fdB
  | tail _ hs ih =>
    obtain ⟨w, r, hstep⟩ := hs
    exact pairInv_step ih hstep

theorem exists_close_of_closes {w : Who} {tr : List Act} (h : (cnt w tr).closes = 1) :
    ∃ a ∈ tr, a.who = w ∧ a.eff = .closed := by
  have hpos : 0 < (cnt w tr).closes := by omega
  simp only [cnt, List.countP_pos_iff] at hpos
  obtain ⟨a, ha, hp⟩ := hpos
  simp only [Bool.and_eq_true, decide_eq_true_eq] at hp
  exact ⟨a, ha, hp.1, hp.2⟩

set_option maxRecDepth 100000 in
/-- C2, as stated, fails: in this complete run of `process_a` with `process_b`
no send or receive fails, and the Responder closes its end (event 139) before
the Initiator's tenth receive (event 141): not all receives come before either
side closes. -/
theorem C2_counterexample :
    Reachable (pairInit 4 3) (runD pairSchedule (pairInit 4 3)) ∧
    (runD pairSchedule (pairInit 4 3)).parent.terminated = true ∧
    (runD pairSchedule (pairInit 4 3)).childDone = true ∧
    (∀ a ∈ (runD pairSchedule (pairInit 4 3)).trace, a.eff ≠ .failed) ∧
    (runD pairSchedule (pairInit 4 3)).trace[139]?.map (fun a => (a.who, a.eff)) =
      some (.child, .closed) ∧
    (runD pairSchedule (pairInit 4 3)).trace[141]?.map (fun a => (a.who, a.eff)) =
      some (.parent, .received PONG) ∧
    (cnt .parent ((runD pairSchedule (pairInit 4 3)).trace.take 141)).recvs = 9 :=
  ⟨reachable_runD _ _, by decide, by decide, by decide, by decide, by decide, by decide⟩

/-- C2, amended: in every complete run of `process_a` on descriptor `fdA` with
`process_b` on descriptor `fdB` (both have terminated) in which no send or
receive fails, the Initiator has made exactly 10 successful sends and 10
successful receives, the Responder exactly 10 receives and 10 sends, and each
side has closed its connection exactly once: each has made one `close` call,
that call is on its own connected descriptor (`fdA` for the Initiator, `fdB`
for the Responder), and both ends of the connection are closed.  Each side
makes all its sends and receives before it closes its own end; after any close
nothing is sent, and the only receive that can follow a close is a receive by
the Initiator after the close of the Responder. -/
theorem C2_exact_counts (fdA fdB : Int) (s : Sys) (h : Reachable (pairInit fdA fdB) s)
    (hA : s.parent.terminated = true) (hB : s.childDone = true)
    (hnf : ∀ a ∈ s.trace, a.eff ≠ .failed) :
    (cnt .parent s.trace).sends = MAX_ITERATIONS ∧
    (cnt .parent s.trace).recvs = MAX_ITERATIONS ∧
    (cnt .child s.trace).recvs = MAX_ITERATIONS ∧
    (cnt .child s.trace).sends = MAX_ITERATIONS ∧
    (cnt .parent s.trace).closes = 1 ∧ (cnt .child s.trace).closes = 1 ∧
    Ordered s.trace ∧
    s.connP = some fdA ∧ s.connC = some fdB ∧
    s.trace.countP (fun a => decide (a.who = .parent) && decide (a.call = .close fdA)) = 1 ∧
    s.trace.countP (fun a => decide (a.who = .child) && decide (a.call = .close fdB)) = 1 ∧
    (∀ a ∈ s.trace, a.who = .parent → a.eff = .closed → a.call = .close fdA) ∧
    (∀ a ∈ s.trace, a.who = .child → a.eff = .closed → a.call = .close fdB) ∧
    s.closedP = true ∧ s.closedC = true := by
  have hI := inv_reachable (inv_pairInit fdA fdB) h
  have hO := inv_ordered_reachable (inv_pairInit fdA fdB) rfl h
  have hD := pairInv_reachable h
  have fA : (cnt .parent s.trace).fails = 0 := fails_zero hnf
  have fB : (cnt .child s.trace).fails = 0 := fails_zero hnf
  have hprogs := hI.progs
  cases hch : s.child with
  | none => simp [Sys.childDone, hch] at hB
  | some cp =>
    rw [hch] at hprogs
    obtain ⟨sA, sB⟩ := hprogs
    have hcp : cp.terminated = true := by simpa [Sys.childDone, hch] using hB
    have kA : (cnt .parent s.trace).sends = 10 ∧ (cnt .parent s.trace).recvs = 10 ∧
        (cnt .parent s.trace).closes = 1 := by
      cases hpar : s.parent with
      | sys c k => simp [hpar, Prog.terminated] at hA
      | exit st =>
        rw [hpar] at sA
        have := sA.2 rfl
        omega
      | ret v =>
        rw [hpar] at sA
        exact ⟨sA.2.1, sA.2.2.1, sA.2.2.2.1⟩
    have kB : (cnt .child s.trace).sends = 10 ∧ (cnt .child s.trace).recvs = 10 ∧
        (cnt .child s.trace).closes = 1 := by
      cases cp with
      | sys c k => simp [Prog.terminated] at hcp
      | exit st =>
        rcases sB with ⟨-, -, -, -, hf⟩ | ⟨-, -, hf⟩
        · simp at hf
        · have := hf rfl
          omega
      | ret v => exact ⟨sB.2.1, sB.2.2.1, sB.2.2.2.1⟩
    obtain ⟨a, ha, haw, hae⟩ := exists_close_of_closes kA.2.2
    obtain ⟨b, hb, hbw, hbe⟩ := exists_close_of_closes kB.2.2
    have cA : s.trace.countP (fun a => decide (a.who = .parent) && decide (a.call = .close fdA))
        = (cnt .parent s.trace).closes := by
      simp only [cnt]
      apply List.countP_congr
      intro x hx
      simp only [Bool.and_eq_true, decide_eq_true_eq]
      constructor
      · rintro ⟨h1, h2⟩
        exact ⟨h1, by simp [Act.eff, h2, effOf]⟩
      · rintro ⟨h1, h2⟩
        exact ⟨h1, (hD.closesP x hx h1 h2).1⟩
    have cB : s.trace.countP (fun a => decide (a.who = .child) && decide (a.call = .close fdB))
        = (cnt .child s.trace).closes := by
      simp only [cnt]
      apply List.countP_congr
      intro x hx
      simp only [Bool.and_eq_true, decide_eq_true_eq]
      constructor
      · rintro ⟨h1, h2⟩
        exact ⟨h1, by simp [Act.eff, h2, effOf]⟩
      · rintro ⟨h1, h2⟩
        exact ⟨h1, (hD.closesC x hx h1 h2).1⟩
    exact ⟨kA.1, kA.2.1, kB.2.1, kB.1, kA.2.2, kB.2.2, hO, hD.connP, hD.connC,
      by rw [cA]; exact kA.2.2, by rw [cB]; exact kB.2.2,
      fun x hx h1 h2 => (hD.closesP x hx h1 h2).1, fun x hx h1 h2 => (hD.closesC x hx h1 h2).1,
      (hD.closesP a ha haw hae).2, (hD.closesC b hb hbw hbe).2⟩

set_option maxRecDepth 100000 in
/-- C2, amended, at a concrete input: the complete run `pairSchedule`, at the
end of which both ends are closed. -/
theorem C2_exact_counts_witness :
    Reachable (pairInit 4 3) (runD pairSchedule (pairInit 4 3)) ∧
    (runD pairSchedule (pairInit 4 3)).parent.terminated = true ∧
    (runD pairSchedule (pairInit 4 3)).childDone = true ∧
    (∀ a ∈ (runD pairSchedule (pairInit 4 3)).trace, a.eff ≠ .failed) ∧
    (cnt .parent (runD pairSchedule (pairInit 4 3)).trace).sends = MAX_ITERATIONS ∧
    (runD pairSchedule (pairInit 4 3)).trace.countP
      (fun a => decide (a.who = .parent) && decide (a.call = .close 4)) = 1 ∧
    (runD pairSchedule (pairInit 4 3)).trace.countP
      (fun a => decide (a.who = .child) && decide (a.call = .close 3)) = 1 ∧
    (runD pairSchedule (pairInit 4 3)).closedP = true ∧
    (runD pairSchedule (pairInit 4 3)).closedC = true :=
  ⟨reachable_runD _ _, by decide, by decide, by decide,
    (C2_exact_counts 4 3 _ (reachable_runD pairSchedule (pairInit 4 3)) (by decide) (by decide)
      (by decide)).1,
    (C2_exact_counts 4 3 _ (reachable_runD pairSchedule (pairInit 4 3)) (by decide) (by decide)
      (by decide)).2.2.2.2.2.2.2.2.2.1,
    (C2_exact_counts 4 3 _ (reachable_runD pairSchedule (pairInit 4 3)) (by decide) (by decide)
      (by decide)).2.2.2.2.2.2.2.2.2.2.1,
    (C2_exact_counts 4 3 _ (reachable_runD pairSchedule (pairInit 4 3)) (by decide) (by decide)
      (by decide)).2.2.2.2.2.2.2.2.2.2.2.2.2.1,
    (C2_exact_counts 4 3 _ (reachable_runD pairSchedule (pairInit 4 3)) (by decide) (by decide)
      (by decide)).2.2.2.2.2.2.2.2.2.2.2.2.2.2⟩

/-- C5: in every reachable state of the whole program in which the parent has
terminated with status 0, the parent has returned 0 from `main` after 10
successful sends and 10 successful receives and the close of its connection,
the child has made 10 successful receives and 10 successful sends and closed
its connection, and the child has terminated by `exit(0)`. -/
theorem C5_success_needs_both (s : Sys) (h : Reachable mainInit s)
    (hp : s.parent.status = some 0) :
    s.parent = .ret 0 ∧
    (cnt .parent s.trace).sends = MAX_ITERATIONS ∧
    (cnt .parent s.trace).recvs = MAX_ITERATIONS ∧
    (cnt .parent s.trace).closes = 1 ∧
    (cnt .child s.trace).recvs = MAX_ITERATIONS ∧
    (cnt .child s.trace).sends = MAX_ITERATIONS ∧
    (cnt .child s.trace).closes = 1 ∧
    s.child = some (.exit 0) := by
  have hI := inv_reachable inv_mainInit h
  obtain ⟨⟨c1, c2, c3, c4, c5⟩, -, -, -, -, hcB⟩ := hI.core
  have hprogs := hI.progs
  have hw := hI.waited
  cases hch : s.child with
  | none =>
    rw [hch] at hprogs
    obtain ⟨-, hpre, -, -⟩ := hprogs
    cases hpar : s.parent with
    | sys c k => simp [hpar, Prog.status] at hp
    | exit st =>
      rw [hpar] at hpre hp
      simp only [Prog.status, Option.some.injEq] at hp
      exact absurd hp hpre
    | ret v => rw [hpar] at hpre; exact absurd hpre (by simp [PreFork])
  | some cp =>
    rw [hch] at hprogs
    obtain ⟨sA, sB⟩ := hprogs
    cases hpar : s.parent with
    | sys c k => simp [hpar, Prog.status] at hp
    | exit st =>
      rw [hpar] at sA hp
      simp only [Prog.status, Option.some.injEq] at hp
      exact absurd hp sA.1
    | ret v =>
      rw [hpar] at sA hp
      simp only [Prog.status, Option.some.injEq] at hp
      obtain ⟨-, a1, a2, a3, a4⟩ := sA
      have hdone := hw (a4 rfl)
      have hcp : cp.terminated = true := by simpa [Sys.childDone, hch] using hdone
      have hBs : (cnt .child s.trace).sends = 10 := by omega
      have hBr : (cnt .child s.trace).recvs = 10 := by omega
      cases cp with
      | sys c k => simp [Prog.terminated] at hcp
      | ret v' => exact absurd sB.2.2.2.2 (by simp)
      | exit st =>
        rcases sB with ⟨e0, -, -, e3, -⟩ | ⟨-, e1, -⟩
        · subst e0 hp
          exact ⟨rfl, a1, a2, a3, hBr, hBs, e3, rfl⟩
        · omega

set_option maxRecDepth 100000 in
/-- C5, at a concrete input: the complete successful run `mainSchedule`. -/
theorem C5_success_needs_both_witness :
    Reachable mainInit (runD mainSchedule mainInit) ∧
    (runD mainSchedule mainInit).parent.status = some 0 ∧
    (runD mainSchedule mainInit).child = some (.exit 0) :=
  ⟨reachable_runD _ _, by decide,
    (C5_success_needs_both _ (reachable_runD mainSchedule mainInit) (by decide)).2.2.2.2.2.2.2⟩

end PingPong
